import Mathlib

/-!
Verification model of the FIFO coordination service in `server/fifio.go`
of katexochen/sync.

The embedding follows the Go source closely:

* `Fifo` and `Ticket` mirror the two GORM-persisted record types.
* Times and durations are modelled as `Int` (Go stores `time.Duration`
  as a 64-bit nanosecond count and `time.Time` as an absolute instant;
  `a.After(b)` is the strict comparison `b < a`).
* The in-memory side of `fifoManager` is modelled explicitly:
  `waiters` is the ticket-id to channel map, a channel being a `Nat`
  identifier; closing a channel puts its identifier into `fired`
  (a closed Go channel releases every reader, hence a broadcast).
  `notifiers` is the single-flight registration set of `notifyOnce`,
  and `timers` is the multiset of pending `clock.AfterFunc` callbacks
  (the code never cancels one, so a callback can outlive its
  `notifiers` registration).
* Each HTTP handler becomes a function on the global state `St`.
  `wait` is the only suspending handler: it is split at its single
  suspension point (the Go `select`) into `waitStart` (load ticket,
  register waiter, `updateTicketQueue`) and the two resume branches
  `waitTimeoutStep` (the 408 branch) and `waitResume` (the signal
  branch, which re-checks `checkTimeouts` on the ticket value loaded
  at the start of the call — exactly as the Go code does).
* `Reachable` is the transition system generated by the handlers, the
  timer loop and the reaper, interleaved as atomic steps with time
  advancing in between (`updateTicketQueue` runs inside a store
  transaction with a single writer, so treating it as one atomic step
  matches the code's serialization).

The SQL scan `ORDER BY created_at ASC ... LIMIT 2` is modelled by
`selMin`, a stable selection of the minimal `createdAt` row: the query
orders by `created_at` only, so rows with equal `created_at` keep the
scan (insertion) order — no UUID tie-break is present in the query.
-/

/-- One row of the `fifos` table (struct `fifo` in `server/fifio.go`). -/
structure Fifo where
  uuid : Nat
  createdAt : Int
  updatedAt : Int
  waitTimeout : Int
  acceptTimeout : Int
  doneTimeout : Int
  unusedDestroyTimeout : Int
  allowOverrides : Bool
deriving DecidableEq, Repr

/-- One row of the `tickets` table (struct `ticket` in `server/fifio.go`).
`notifiedAt` and `acceptedAt` are the two nullable timestamps. -/
structure Ticket where
  uuid : Nat
  createdAt : Int
  notifiedAt : Option Int
  acceptedAt : Option Int
  waitTimeout : Int
  acceptTimeout : Int
  doneTimeout : Int
  fifoUUID : Nat
deriving DecidableEq, Repr

/-- A suspended `wait` handler, parked at the Go `select`:
`snap` is the ticket value loaded by `m.db.First(tick)` at the start of
the call (the handler keeps using this stale copy after it wakes up),
`chanId` the waiter channel it subscribed to, `blockedAt` the instant
the select started (its 408 branch fires `waitTimeout` after that). -/
structure WaitCtx where
  snap : Ticket
  chanId : Nat
  blockedAt : Int
deriving DecidableEq, Repr

/-- Global state: the two store tables, the in-memory maps of
`fifoManager`, the pending timer callbacks, the parked `wait` calls and
the clock. `usedUuids` records every UUID ever handed out
(`uuidlib.New()` never repeats an identifier). -/
structure St where
  fifos : List Fifo
  tickets : List Ticket
  waiters : List (Nat × Nat)
  fired : List Nat
  nextChan : Nat
  notifiers : List Nat
  timers : List (Nat × Int)
  blocked : List WaitCtx
  usedUuids : List Nat
  now : Int
deriving DecidableEq, Repr

def St.empty : St :=
  { fifos := [], tickets := [], waiters := [], fired := [], nextChan := 0,
    notifiers := [], timers := [], blocked := [], usedUuids := [], now := 0 }

/-- `checkTimeouts` (`server/fifio.go:71`): returns `true` when the
ticket is stale. First condition: notified, not accepted, and
`now.After(notifiedAt + acceptTimeout)`. Second condition: accepted and
`now.After(acceptedAt + doneTimeout)`. -/
def checkTimeoutsStale (now : Int) (t : Ticket) : Bool :=
  (match t.notifiedAt, t.acceptedAt with
   | some nAt, none => decide (nAt + t.acceptTimeout < now)
   | _, _ => false) ||
  (match t.acceptedAt with
   | some aAt => decide (aAt + t.doneTimeout < now)
   | none => false)

/-- The rows of one FIFO's queue, in table (insertion) order. -/
def ticketsOf (fid : Nat) (s : St) : List Ticket :=
  s.tickets.filter (fun t => t.fifoUUID == fid)

/-- Stable selection of the row with minimal `createdAt`: the head of
`ORDER BY created_at ASC`; rows tied on `createdAt` keep their scan
order (the query has no further ordering term). Returns the selected
row and the remaining rows in their original order. -/
def selMin : List Ticket → Option (Ticket × List Ticket)
  | [] => none
  | t :: ts =>
    match selMin ts with
    | none => some (t, [])
    | some (m, r) =>
      if t.createdAt ≤ m.createdAt then some (t, ts) else some (m, t :: r)

/-- `updateFifo` (`server/fifio.go:54`): bump the fifo's `UpdatedAt` so
the reaper does not collect it. -/
def touchFifo (fid : Nat) (s : St) : St :=
  { s with fifos := s.fifos.map (fun f =>
      if f.uuid == fid then { f with updatedAt := s.now } else f) }

/-- `tx.Delete(&tickets[0])`: remove the row with the given UUID. -/
def deleteTicket (u : Nat) (s : St) : St :=
  { s with tickets := s.tickets.filter (fun t => ¬ t.uuid == u) }

/-- Row transformer of the `NotifiedAt` update: touches only the row
with the given UUID. -/
def markNotified (u : Nat) (v : Int) (t : Ticket) : Ticket :=
  if t.uuid == u then { t with notifiedAt := some v } else t

/-- `tx.Select("NotifiedAt").Updates(...)`: set `notifiedAt` on the row
with the given UUID. -/
def setNotifiedAt (u : Nat) (v : Int) (s : St) : St :=
  { s with tickets := s.tickets.map (markNotified u v) }

/-- `getWaiter` (`server/fifio.go:155`). -/
def lookupWaiter (u : Nat) (s : St) : Option Nat :=
  (s.waiters.find? (fun p => p.1 == u)).map (fun p => p.2)

/-- `removeWaiter` (`server/fifio.go:149`). -/
def removeWaiter (u : Nat) (s : St) : St :=
  { s with waiters := s.waiters.filter (fun q => ¬ q.1 == u) }

/-- The `close(waitC); removeWaiter(...)` pair used by
`updateTicketQueue` (`server/fifio.go:110` and `:133`): if a waiter
channel is registered for the ticket, close it (broadcast) and drop the
registration. -/
def fireWaiter (u : Nat) (s : St) : St :=
  match s.waiters.find? (fun p => p.1 == u) with
  | some p =>
    { s with fired := p.2 :: s.fired,
             waiters := s.waiters.filter (fun q => ¬ q.1 == u) }
  | none => s

/-- `notifyOnce` (`server/fifio.go:170`): single-flight arming. If a
registration for the ticket exists, do nothing; otherwise register it
and schedule an `AfterFunc` callback for instant `fireAt`
(`AfterFunc(-clock.Since(t), ...)` fires once the clock reaches `t`). -/
def notifyOnce (u : Nat) (fireAt : Int) (s : St) : St :=
  if u ∈ s.notifiers then s
  else { s with notifiers := u :: s.notifiers, timers := (u, fireAt) :: s.timers }

/-- Eviction of a stale queue head (`server/fifio.go:104`-`:115`):
delete the row, then fire-and-remove its waiter so late `wait` calls
are notified. -/
def evictHead (t0 : Ticket) (s : St) : St :=
  fireWaiter t0.uuid (deleteTicket t0.uuid s)

/-- The instant `updateTicketQueue` arms the head's one-shot timer for
(`server/fifio.go:127`-`:131`): `NotifiedAt + AcceptTimeout` while the
head is unaccepted, and `NotifiedAt + WaitTimeout` once it is accepted
(the Go code really uses `WaitTimeout` there, not
`AcceptedAt + DoneTimeout`). -/
def armTime (h : Ticket) : Int :=
  if h.acceptedAt.isNone then h.notifiedAt.getD 0 + h.acceptTimeout
  else h.notifiedAt.getD 0 + h.waitTimeout

/-- Steps 5-7 of `updateTicketQueue` on the surviving head `h`
(`server/fifio.go:119`-`:136`): set `notifiedAt` if still null, arm the
single-flight timer, and in any case fire-and-remove the head's waiter. -/
def notifyHead (h : Ticket) (s : St) : St :=
  if h.notifiedAt.isNone then
    fireWaiter h.uuid
      (notifyOnce h.uuid (armTime { h with notifiedAt := some s.now })
        (setNotifiedAt h.uuid s.now s))
  else
    fireWaiter h.uuid (notifyOnce h.uuid (armTime h) s)

/-- `updateTicketQueue` (`server/fifio.go:83`): inside one transaction,
touch the fifo, load the two oldest tickets, evict the head if stale
(firing its waiter), then notify the surviving head: set `notifiedAt`
if null, arm the timer, fire the head's waiter. Returns `none` when the
fifo does not exist (the transaction fails with an error). -/
def updateTicketQueue (fid : Nat) (s : St) : Option St :=
  match s.fifos.find? (fun f => f.uuid == fid) with
  | none => none
  | some _ =>
    let s0 := touchFifo fid s
    match selMin (ticketsOf fid s0) with
    | none => some s0
    | some (t0, r0) =>
      if checkTimeoutsStale s0.now t0 then
        match selMin r0 with
        | none => some (evictHead t0 s0)
        | some (t1, _) => some (notifyHead t1 (evictHead t0 s0))
      else some (notifyHead t0 s0)

/-- The `/fifo/new` handler (`server/fifio.go:252`): persist a fresh
fifo whose four durations come from the request (defaults 6h/1m/10m/30d
when absent); `CreatedAt`/`UpdatedAt` are set to the current instant. -/
def newFifoSt (u : Nat) (wT aT dT uT : Int) (ao : Bool) (s : St) : St :=
  let f : Fifo :=
    { uuid := u, createdAt := s.now, updatedAt := s.now,
      waitTimeout := wT, acceptTimeout := aT, doneTimeout := dT,
      unusedDestroyTimeout := uT, allowOverrides := ao }
  { s with fifos := s.fifos ++ [f], usedUuids := u :: s.usedUuids }

/-- The ticket row built by the `/fifo/{u}/ticket` handler
(`server/fifio.go:339`): durations inherited from the fifo (the
no-override request). -/
def mkTicket (u fid : Nat) (f : Fifo) (now : Int) : Ticket :=
  { uuid := u, createdAt := now, notifiedAt := none, acceptedAt := none,
    waitTimeout := f.waitTimeout, acceptTimeout := f.acceptTimeout,
    doneTimeout := f.doneTimeout, fifoUUID := fid }

/-- The `/fifo/{u}/ticket` handler (`server/fifio.go:316`): 404 when the
fifo is missing (`none`); otherwise insert the new ticket and call
`updateTicketQueue` before responding 200. -/
def ticketCall (fid u : Nat) (s : St) : Option St :=
  match s.fifos.find? (fun f => f.uuid == fid) with
  | none => none
  | some f =>
    updateTicketQueue fid
      { s with tickets := s.tickets ++ [mkTicket u fid f s.now],
               usedUuids := u :: s.usedUuids }

/-- First half of the `/fifo/{u}/wait/{t}` handler
(`server/fifio.go:396`-`:432`): load the ticket (404 when missing, 400
when it belongs to another fifo), get-or-create its waiter channel,
call `updateTicketQueue`, and park at the select. The returned
`WaitCtx` carries the ticket value loaded at the start — the handler
re-checks timeouts on this stale copy after it wakes. -/
def waitStart (fid tu : Nat) (s : St) : Option (St × WaitCtx) :=
  match s.tickets.find? (fun t => t.uuid == tu) with
  | none => none
  | some t =>
    if t.fifoUUID == fid then
      match lookupWaiter tu s with
      | some c =>
        let ctx : WaitCtx := { snap := t, chanId := c, blockedAt := s.now }
        (updateTicketQueue t.fifoUUID
          { s with blocked := ctx :: s.blocked }).map (fun s2 => (s2, ctx))
      | none =>
        let c := s.nextChan
        let ctx : WaitCtx := { snap := t, chanId := c, blockedAt := s.now }
        (updateTicketQueue t.fifoUUID
          { s with waiters := (tu, c) :: s.waiters, nextChan := c + 1,
                   blocked := ctx :: s.blocked }).map (fun s2 => (s2, ctx))
    else none

/-- The 408 branch of the wait select (`server/fifio.go:434`-`:438`):
enabled once `clock.After(tick.WaitTimeout)` has fired; the handler
returns 408 performing no store operation (it does not even remove the
waiter registration). -/
def waitTimeoutStep (ctx : WaitCtx) (s : St) : St :=
  { s with blocked := s.blocked.erase ctx }

/-- Row transformer of the conditional `accepted_at` update
(`WHERE accepted_at IS NULL` and the row's primary key). -/
def markAccepted (u : Nat) (v : Int) (t : Ticket) : Ticket :=
  if t.uuid == u && t.acceptedAt.isNone then { t with acceptedAt := some v } else t

/-- The signal branch of the wait select (`server/fifio.go:439`-`:462`):
re-run `checkTimeouts` on the ticket value loaded at the start of the
call; if stale return 410. Otherwise run the conditional update
`WHERE accepted_at IS NULL` setting `acceptedAt := now` on the row, and
when a row was affected drop the ticket's `notifiers` registration.
Both outcomes of the conditional update end in 200. -/
def waitResume (ctx : WaitCtx) (s : St) : St × Nat :=
  let s0 := { s with blocked := s.blocked.erase ctx }
  if checkTimeoutsStale s0.now ctx.snap then (s0, 410)
  else
    let affected := s0.tickets.any (fun t => t.uuid == ctx.snap.uuid && t.acceptedAt.isNone)
    let s1 := { s0 with tickets := s0.tickets.map (markAccepted ctx.snap.uuid s0.now) }
    if affected then ({ s1 with notifiers := s1.notifiers.erase ctx.snap.uuid }, 200)
    else (s1, 200)

/-- The `/fifo/{u}/done/{t}` handler (`server/fifio.go:465`): load the
ticket (404 when missing, 400 on fifo mismatch), remove — but do not
fire — its waiter registration, delete the row, call
`updateTicketQueue`, return 200. -/
def doneCall (fid tu : Nat) (s : St) : Option St :=
  match s.tickets.find? (fun t => t.uuid == tu) with
  | none => none
  | some t =>
    if t.fifoUUID == fid then
      updateTicketQueue t.fifoUUID (deleteTicket tu (removeWaiter tu s))
    else none

/-- One pending `AfterFunc` callback delivered to the run loop
(`server/fifio.go:189`-`:205`): the registration is removed, the ticket
loaded (a missing row is dropped silently), its timeouts re-checked,
and `updateTicketQueue` invoked only when the ticket is stale (a failed
queue update is only logged). -/
def timerFireStep (u : Nat) (fa : Int) (s : St) : St :=
  let s1 := { s with timers := s.timers.erase (u, fa),
                     notifiers := s.notifiers.erase u }
  match s1.tickets.find? (fun t => t.uuid == u) with
  | none => s1
  | some t =>
    if checkTimeoutsStale s1.now t then (updateTicketQueue t.fifoUUID s1).getD s1
    else s1

/-- One pass of the reaper (`server/fifio.go:206`-`:222`): delete every
fifo with `now.After(updatedAt + unusedDestroyTimeout)`; deleting a
fifo cascades to its tickets (`ON DELETE CASCADE`, foreign keys on). -/
def reapStep (s : St) : St :=
  let keep := s.fifos.filter (fun f => ¬ (f.updatedAt + f.unusedDestroyTimeout < s.now))
  { s with fifos := keep,
           tickets := s.tickets.filter (fun t => keep.any (fun f => f.uuid == t.fifoUUID)) }

/-- Advance the clock. -/
def tickStep (d : Int) (s : St) : St :=
  { s with now := s.now + d }

/-- The states reachable by interleaving the HTTP handlers, the timer
loop and the reaper as atomic steps (`wait` split at its suspension
point). A timer callback may be delivered any time at or after its
`fireAt`; the 408 branch is enabled once `waitTimeout` has elapsed
since the select started; fresh UUIDs never collide with used ones. -/
inductive Reachable : St → Prop where
  | init : Reachable St.empty
  | tick (s : St) (d : Int) : Reachable s → 0 ≤ d → Reachable (tickStep d s)
  | newF (s : St) (u : Nat) (wT aT dT uT : Int) (ao : Bool) :
      Reachable s → u ∉ s.usedUuids → Reachable (newFifoSt u wT aT dT uT ao s)
  | newTicket (s s2 : St) (fid u : Nat) :
      Reachable s → u ∉ s.usedUuids → ticketCall fid u s = some s2 → Reachable s2
  | startWait (s s2 : St) (fid tu : Nat) (ctx : WaitCtx) :
      Reachable s → waitStart fid tu s = some (s2, ctx) → Reachable s2
  | timeoutWait (s : St) (ctx : WaitCtx) :
      Reachable s → ctx ∈ s.blocked →
      ctx.blockedAt + ctx.snap.waitTimeout ≤ s.now →
      Reachable (waitTimeoutStep ctx s)
  | resumeWait (s : St) (ctx : WaitCtx) :
      Reachable s → ctx ∈ s.blocked → ctx.chanId ∈ s.fired →
      Reachable (waitResume ctx s).1
  | ticketDone (s s2 : St) (fid tu : Nat) :
      Reachable s → doneCall fid tu s = some s2 → Reachable s2
  | timerFire (s : St) (u : Nat) (fa : Int) :
      Reachable s → (u, fa) ∈ s.timers → fa ≤ s.now →
      Reachable (timerFireStep u fa s)
  | reap (s : St) : Reachable s → Reachable (reapStep s)

/-- The inductive invariant of the transition system. Beyond the two
facts the mutual-exclusion claim needs — every notified ticket is the
stable head of its FIFO's queue (`headH`) and accepted tickets are
notified (`accN`) — it carries the bookkeeping that makes those
preservable: UUID uniqueness, the waiter-registry well-formedness
(channels are unique, unfired while registered, below the allocation
counter, and registered under the ticket a parked call subscribed to),
and that a parked call whose channel has fired subscribes to a ticket
that is notified if it still exists (`ctxN`). -/
structure SysInv (s : St) : Prop where
  timeLe : ∀ t ∈ s.tickets, t.createdAt ≤ s.now
  uuidND : (s.tickets.map (fun x => x.uuid)).Nodup
  ticketsUsed : ∀ t ∈ s.tickets, t.uuid ∈ s.usedUuids
  headH : ∀ t ∈ s.tickets, t.notifiedAt.isSome →
      ∃ r, selMin (ticketsOf t.fifoUUID s) = some (t, r)
  accN : ∀ t ∈ s.tickets, t.acceptedAt.isSome → t.notifiedAt.isSome
  ctxN : ∀ ctx ∈ s.blocked, ctx.chanId ∈ s.fired →
      ∀ t ∈ s.tickets, t.uuid = ctx.snap.uuid → t.notifiedAt.isSome
  ctxU : ∀ ctx ∈ s.blocked, ctx.snap.uuid ∈ s.usedUuids
  wUnf : ∀ p ∈ s.waiters, p.2 ∉ s.fired
  wLt : ∀ p ∈ s.waiters, p.2 < s.nextChan
  fLt : ∀ c ∈ s.fired, c < s.nextChan
  bLt : ∀ ctx ∈ s.blocked, ctx.chanId < s.nextChan
  ctxW : ∀ ctx ∈ s.blocked, ∀ p ∈ s.waiters, p.2 = ctx.chanId → p.1 = ctx.snap.uuid
  wKnd : (s.waiters.map (fun p => p.1)).Nodup
  wCnd : (s.waiters.map (fun p => p.2)).Nodup

/-! Concrete executions used below. Placeholders for `Option.getD`. -/

def dumT : Ticket :=
  { uuid := 0, createdAt := 0, notifiedAt := none, acceptedAt := none,
    waitTimeout := 0, acceptTimeout := 0, doneTimeout := 0, fifoUUID := 0 }

def dumCtx : WaitCtx := { snap := dumT, chanId := 0, blockedAt := 0 }

/-- Trace A: one fifo (waitTimeout 100, acceptTimeout 10, doneTimeout 5),
one ticket, whose owner waits and accepts, then a second wait call. -/
def trA1 : St := newFifoSt 1 100 10 5 1000 false St.empty

def trA2 : St := (ticketCall 1 2 trA1).getD St.empty

def trA3 : St × WaitCtx := (waitStart 1 2 trA2).getD (St.empty, dumCtx)

def trA4 : St := (waitResume trA3.2 trA3.1).1

def trA5 : St × WaitCtx := (waitStart 1 2 trA4).getD (St.empty, dumCtx)

/-- Trace B: two tickets; the head goes stale while the second owner is
parked in `wait`; the timer evicts the head and notifies the second
ticket; the clock then runs past the second ticket's accept deadline
before its parked `wait` call resumes. -/
def trB1 : St := newFifoSt 1 1000 10 100 9999 false St.empty

def trB2 : St := (ticketCall 1 2 trB1).getD St.empty

def trB3 : St := (ticketCall 1 3 trB2).getD St.empty

def trB4 : St × WaitCtx := (waitStart 1 3 trB3).getD (St.empty, dumCtx)

def trB5 : St := tickStep 20 trB4.1

def trB6 : St := timerFireStep 2 10 trB5

def trB7 : St := tickStep 30 trB6

/-- Trace C: two tickets; a caller is parked in `wait` on the second
(non-head) ticket when `done` is called for that ticket. -/
def trC1 : St := newFifoSt 1 100 10 5 1000 false St.empty

def trC2 : St := (ticketCall 1 2 trC1).getD St.empty

def trC3 : St := (ticketCall 1 3 trC2).getD St.empty

def trC4 : St × WaitCtx := (waitStart 1 3 trC3).getD (St.empty, dumCtx)

def trC5 : St := (doneCall 1 3 trC4.1).getD St.empty

/-- Trace D: two tickets created at the same instant, the first-created
one carrying the larger UUID. -/
def trD1 : St := newFifoSt 1 100 10 5 1000 false St.empty

def trD2 : St := (ticketCall 1 5 trD1).getD St.empty

def trD3 : St := (ticketCall 1 3 trD2).getD St.empty

/-- Trace E: zero durations. A fifo with `unusedDestroyTimeout = 0`, a
fifo with `acceptTimeout = 0`, and a wait on a ticket whose
`waitTimeout` is `0`. -/
def trE1 : St := newFifoSt 1 0 0 0 0 false St.empty

def trE2 : St := (ticketCall 1 2 (newFifoSt 1 100 0 5 1000 false St.empty)).getD St.empty

def trE3 : St := newFifoSt 1 0 10 5 1000 false St.empty

def trE4 : St := (ticketCall 1 2 trE3).getD St.empty

def trE5 : St × WaitCtx := (waitStart 1 2 trE4).getD (St.empty, dumCtx)

/-- A hand-built two-ticket state used as witness input: one fifo, an
unnotified old ticket 7 and a younger ticket 8. -/
def wS9 : St :=
  { fifos := [(⟨1, 0, 0, 100, 10, 5, 1000, false⟩ : Fifo)],
    tickets := [(⟨7, 0, none, none, 100, 10, 5, 1⟩ : Ticket),
                (⟨8, 1, none, none, 100, 10, 5, 1⟩ : Ticket)],
    waiters := [], fired := [], nextChan := 0, notifiers := [], timers := [],
    blocked := [], usedUuids := [8, 7, 1], now := 2 }

def wS9r : St := (updateTicketQueue 1 wS9).getD St.empty

/-! Reachability of the trace states. -/

theorem reachA1 : Reachable trA1 :=
  Reachable.newF St.empty 1 100 10 5 1000 false Reachable.init (by decide)

theorem reachA2 : Reachable trA2 :=
  Reachable.newTicket trA1 trA2 1 2 reachA1 (by decide) (by decide)

theorem reachA3 : Reachable trA3.1 :=
  Reachable.startWait trA2 trA3.1 1 2 trA3.2 reachA2 (by decide)

theorem reachA4 : Reachable trA4 :=
  Reachable.resumeWait trA3.1 trA3.2 reachA3 (by decide) (by decide)

theorem reachA5 : Reachable trA5.1 :=
  Reachable.startWait trA4 trA5.1 1 2 trA5.2 reachA4 (by decide)

theorem reachB3 : Reachable trB3 :=
  Reachable.newTicket trB2 trB3 1 3
    (Reachable.newTicket trB1 trB2 1 2
      (Reachable.newF St.empty 1 1000 10 100 9999 false Reachable.init (by decide))
      (by decide) (by decide))
    (by decide) (by decide)

theorem reachB7 : Reachable trB7 :=
  Reachable.tick trB6 30
    (Reachable.timerFire trB5 2 10
      (Reachable.tick trB4.1 20
        (Reachable.startWait trB3 trB4.1 1 3 trB4.2 reachB3 (by decide))
        (by decide))
      (by decide) (by decide))
    (by decide)

theorem reachC4 : Reachable trC4.1 :=
  Reachable.startWait trC3 trC4.1 1 3 trC4.2
    (Reachable.newTicket trC2 trC3 1 3
      (Reachable.newTicket trC1 trC2 1 2
        (Reachable.newF St.empty 1 100 10 5 1000 false Reachable.init (by decide))
        (by decide) (by decide))
      (by decide) (by decide))
    (by decide)

theorem reachC5 : Reachable trC5 :=
  Reachable.ticketDone trC4.1 trC5 1 3 reachC4 (by decide)

theorem reachD3 : Reachable trD3 :=
  Reachable.newTicket trD2 trD3 1 3
    (Reachable.newTicket trD1 trD2 1 5
      (Reachable.newF St.empty 1 100 10 5 1000 false Reachable.init (by decide))
      (by decide) (by decide))
    (by decide) (by decide)

theorem reachE5 : Reachable trE5.1 :=
  Reachable.startWait trE4 trE5.1 1 2 trE5.2
    (Reachable.newTicket trE3 trE4 1 2
      (Reachable.newF St.empty 1 0 10 5 1000 false Reachable.init (by decide))
      (by decide) (by decide))
    (by decide)

/-! Claim theorems on concrete executions. -/

/-- C1 (code_bug): in the reachable state `trA5.1` the head ticket of
fifo 1 is notified at 0 and accepted at 0, with `waitTimeout = 100`,
`acceptTimeout = 10`, `doneTimeout = 5`; the `updateTicketQueue` call
that re-notified it armed the one-shot timer at
`notifiedAt + waitTimeout = 100`, not at
`acceptedAt + doneTimeout = 5` as the claim (and the repository's own
README, which promises the next ticket is notified when `done_timeout`
elapses after acceptance) states. -/
theorem c1_accepted_head_timer_armed_at_wait_timeout :
    Reachable trA5.1 ∧
    trA5.1.tickets = [(⟨2, 0, some 0, some 0, 100, 10, 5, 1⟩ : Ticket)] ∧
    (2, 100) ∈ trA5.1.timers ∧ ¬ (2, 5) ∈ trA5.1.timers :=
  ⟨reachA5, by decide, by decide, by decide⟩

/-- C6 (counterexample): in the reachable state `trA5.1` two pending
`AfterFunc` timers exist for ticket 2 at once — the accept-phase timer
armed at notification survives the `notifiers` registration being
dropped when the ticket is accepted, and the next `updateTicketQueue`
call arms a second timer. -/
theorem c6_two_pending_timers_for_one_ticket :
    Reachable trA5.1 ∧ trA5.1.timers.countP (fun p => p.1 == 2) = 2 :=
  ⟨reachA5, by decide⟩

/-- C7 (counterexample): in the reachable state `trB7` the parked wait
call `trB4.2` has its signal fired, the current row of its ticket 3 is
stale (`notifiedAt = 20`, `acceptTimeout = 10`, `now = 50`), yet the
resume returns 200 — not 410 — because the handler re-checks
`checkTimeouts` on the ticket value it loaded before blocking, in which
both timestamps were still null; it even accepts the stale ticket. -/
theorem c7_stale_ticket_resumes_with_200 :
    Reachable trB7 ∧ trB4.2 ∈ trB7.blocked ∧ trB4.2.chanId ∈ trB7.fired ∧
    trB7.tickets.find? (fun t => t.uuid == 3) =
      some (⟨3, 0, some 20, none, 1000, 10, 100, 1⟩ : Ticket) ∧
    checkTimeoutsStale trB7.now (⟨3, 0, some 20, none, 1000, 10, 100, 1⟩ : Ticket) = true ∧
    (waitResume trB4.2 trB7).2 = 200 ∧
    ((waitResume trB4.2 trB7).1.tickets.map (fun t => t.acceptedAt)) = [some 50] :=
  ⟨reachB7, by decide, by decide, by decide, by decide, by decide, by decide⟩

/-- C2 (counterexample): in the reachable state `trC4.1` a caller is
parked in `wait` on ticket 3 (waiter channel registered, not fired);
the `done` call for ticket 3 succeeds, deletes the ticket and removes
the waiter registration, but fires nothing: `fired` stays empty, so the
parked caller is not released by `done`. -/
theorem c2_done_removes_waiter_without_firing :
    Reachable trC4.1 ∧ trC4.2 ∈ trC4.1.blocked ∧
    lookupWaiter 3 trC4.1 = some trC4.2.chanId ∧ trC4.1.fired = [] ∧
    doneCall 1 3 trC4.1 = some trC5 ∧
    trC5.fired = [] ∧ trC4.2 ∈ trC5.blocked ∧
    trC5.tickets.find? (fun t => t.uuid == 3) = none ∧
    lookupWaiter 3 trC5 = none :=
  ⟨reachC4, by decide, by decide, by decide, by decide, by decide,
   by decide, by decide, by decide⟩

/-- C9 (counterexample): in the reachable state `trD3` fifo 1 holds two
live tickets with equal `createdAt`; the scan selects — and the engine
has notified — the first-inserted ticket 5 as head, although the
minimum under the claimed order (createdAt, then UUID) is ticket 3,
which is alive, un-deleted and un-notified: the query orders by
`created_at` only and breaks ties by scan order, not UUID. -/
theorem c9_tie_not_broken_by_uuid :
    Reachable trD3 ∧
    ticketsOf 1 trD3 =
      [(⟨5, 0, some 0, none, 100, 10, 5, 1⟩ : Ticket),
       (⟨3, 0, none, none, 100, 10, 5, 1⟩ : Ticket)] ∧
    (selMin (ticketsOf 1 trD3)).map (fun p => p.1.uuid) = some 5 :=
  ⟨reachD3, by decide, by decide⟩

/-- C3 (code_bug): zero durations are not treated as "disabled"
anywhere, although the README documents `0` as "no timeout".
(1) A fifo with `unusedDestroyTimeout = 0` is reaped as soon as any
time has passed. (2) `updateTicketQueue` arms a timer computed from a
zero `acceptTimeout`. (3) A wait call on a ticket with
`waitTimeout = 0` has its 408 timer branch enabled immediately. -/
theorem c3_zero_duration_arms_and_reaps :
    Reachable (reapStep (tickStep 1 trE1)) ∧
    (reapStep (tickStep 1 trE1)).fifos = [] ∧
    ticketCall 1 2 (newFifoSt 1 100 0 5 1000 false St.empty) = some trE2 ∧
    trE2.timers = [(2, 0)] ∧
    Reachable trE5.1 ∧ trE5.2 ∈ trE5.1.blocked ∧
    trE5.2.snap.waitTimeout = 0 ∧
    trE5.2.blockedAt + trE5.2.snap.waitTimeout ≤ trE5.1.now :=
  ⟨Reachable.reap (tickStep 1 trE1)
      (Reachable.tick trE1 1
        (Reachable.newF St.empty 1 0 0 0 0 false Reachable.init (by decide))
        (by decide)),
   by decide, by decide, by decide, reachE5, by decide, by decide, by decide⟩

/-- C4 (counterexample): `checkTimeouts` reports a ticket with
`notifiedAt == null` but `acceptedAt != null` as stale once
`acceptedAt + doneTimeout` has passed (its second condition does not
look at `notifiedAt`), contradicting the claim's corollary that a
ticket with `notifiedAt == null` is never stale. -/
theorem c4_unnotified_accepted_ticket_is_stale :
    checkTimeoutsStale 10 (⟨9, 0, none, some 0, 0, 0, 5, 1⟩ : Ticket) = true ∧
    (⟨9, 0, none, some 0, 0, 0, 5, 1⟩ : Ticket).notifiedAt = none := by
  exact ⟨by decide, by decide⟩

/-- C4 (amended): the staleness check returns stale exactly when
(notifiedAt set, acceptedAt null and `notifiedAt + acceptTimeout < now`)
or (acceptedAt set and `acceptedAt + doneTimeout < now`); a ticket with
both `notifiedAt` and `acceptedAt` null is never stale. -/
theorem c4_stale_characterization (now : Int) (t : Ticket) :
    (checkTimeoutsStale now t = true ↔
      ((∃ nAt, t.notifiedAt = some nAt ∧ t.acceptedAt = none ∧
          nAt + t.acceptTimeout < now) ∨
       (∃ aAt, t.acceptedAt = some aAt ∧ aAt + t.doneTimeout < now))) ∧
    (t.notifiedAt = none → t.acceptedAt = none →
      checkTimeoutsStale now t = false) := by
  constructor
  · rcases hn : t.notifiedAt with _ | nAt <;> rcases ha : t.acceptedAt with _ | aAt <;>
      simp [checkTimeoutsStale, hn, ha]
  · intro hn ha
    simp [checkTimeoutsStale, hn, ha]

/-- C4 witness: the characterization applied to a fresh (never notified,
never accepted) ticket shows it healthy. -/
theorem c4_stale_characterization_witness :
    checkTimeoutsStale 1000 (⟨9, 0, none, none, 0, 0, 5, 1⟩ : Ticket) = false :=
  (c4_stale_characterization 1000 _).2 rfl rfl

/-! Frame and decomposition lemmas for the queue engine. -/

theorem notifyOnce_waiters (u : Nat) (fa : Int) (s : St) :
    (notifyOnce u fa s).waiters = s.waiters := by
  unfold notifyOnce; split <;> rfl

theorem notifyOnce_fired (u : Nat) (fa : Int) (s : St) :
    (notifyOnce u fa s).fired = s.fired := by
  unfold notifyOnce; split <;> rfl

theorem notifyOnce_tickets (u : Nat) (fa : Int) (s : St) :
    (notifyOnce u fa s).tickets = s.tickets := by
  unfold notifyOnce; split <;> rfl

theorem notifyOnce_blocked (u : Nat) (fa : Int) (s : St) :
    (notifyOnce u fa s).blocked = s.blocked := by
  unfold notifyOnce; split <;> rfl

theorem fireWaiter_tickets (u : Nat) (s : St) :
    (fireWaiter u s).tickets = s.tickets := by
  unfold fireWaiter
  cases hf : s.waiters.find? (fun p => p.1 == u) <;> rfl

theorem fireWaiter_blocked (u : Nat) (s : St) :
    (fireWaiter u s).blocked = s.blocked := by
  unfold fireWaiter
  cases hf : s.waiters.find? (fun p => p.1 == u) <;> rfl

theorem fireWaiter_fired_sub (u : Nat) (s : St) :
    ∀ c ∈ (fireWaiter u s).fired, c ∈ s.fired ∨ ∃ p ∈ s.waiters, p.2 = c := by
  intro c hc
  unfold fireWaiter at hc
  cases hf : s.waiters.find? (fun p => p.1 == u) with
  | none => rw [hf] at hc; exact Or.inl hc
  | some p =>
    rw [hf] at hc
    rcases List.mem_cons.mp hc with h | h
    · exact Or.inr ⟨p, List.mem_of_find?_eq_some hf, h.symm⟩
    · exact Or.inl h

theorem fireWaiter_fired_mono (u : Nat) (s : St) :
    ∀ c ∈ s.fired, c ∈ (fireWaiter u s).fired := by
  intro c hc
  unfold fireWaiter
  cases hf : s.waiters.find? (fun p => p.1 == u) with
  | none => exact hc
  | some p => exact List.mem_cons_of_mem _ hc

theorem fireWaiter_waiters_sub (u : Nat) (s : St) :
    ∀ p ∈ (fireWaiter u s).waiters, p ∈ s.waiters := by
  intro p hp
  unfold fireWaiter at hp
  cases hf : s.waiters.find? (fun q => q.1 == u) with
  | none => rw [hf] at hp; exact hp
  | some q => rw [hf] at hp; exact List.mem_of_mem_filter hp

theorem notifyHead_fired_sub (t : Ticket) (s : St) :
    ∀ c ∈ (notifyHead t s).fired, c ∈ s.fired ∨ ∃ p ∈ s.waiters, p.2 = c := by
  intro c hc
  unfold notifyHead at hc
  by_cases hn : t.notifiedAt.isNone
  · rw [if_pos hn] at hc
    have h2 := fireWaiter_fired_sub t.uuid _ c hc
    rw [notifyOnce_fired, notifyOnce_waiters] at h2
    exact h2
  · rw [if_neg hn] at hc
    have h2 := fireWaiter_fired_sub t.uuid _ c hc
    rw [notifyOnce_fired, notifyOnce_waiters] at h2
    exact h2

theorem notifyHead_fired_mono (t : Ticket) (s : St) :
    ∀ c ∈ s.fired, c ∈ (notifyHead t s).fired := by
  intro c hc
  unfold notifyHead
  by_cases hn : t.notifiedAt.isNone
  · rw [if_pos hn]
    refine fireWaiter_fired_mono t.uuid _ c ?_
    rw [notifyOnce_fired]
    exact hc
  · rw [if_neg hn]
    refine fireWaiter_fired_mono t.uuid _ c ?_
    rw [notifyOnce_fired]
    exact hc

theorem notifyHead_waiters_sub (t : Ticket) (s : St) :
    ∀ p ∈ (notifyHead t s).waiters, p ∈ s.waiters := by
  intro p hp
  unfold notifyHead at hp
  by_cases hn : t.notifiedAt.isNone
  · rw [if_pos hn] at hp
    have h2 := fireWaiter_waiters_sub t.uuid _ p hp
    rw [notifyOnce_waiters] at h2
    exact h2
  · rw [if_neg hn] at hp
    have h2 := fireWaiter_waiters_sub t.uuid _ p hp
    rw [notifyOnce_waiters] at h2
    exact h2

theorem setNotifiedAt_exists_uuid (u : Nat) (v : Int) (s : St) (tu : Nat)
    (h : ∃ x ∈ s.tickets, x.uuid = tu) :
    ∃ x ∈ (setNotifiedAt u v s).tickets, x.uuid = tu := by
  rcases h with ⟨x, hx, hxu⟩
  refine ⟨if x.uuid == u then { x with notifiedAt := some v } else x, ?_, ?_⟩
  · exact List.mem_map_of_mem _ hx
  · split <;> simpa using hxu

theorem notifyHead_exists_uuid (t : Ticket) (s : St) (tu : Nat)
    (h : ∃ x ∈ s.tickets, x.uuid = tu) :
    ∃ x ∈ (notifyHead t s).tickets, x.uuid = tu := by
  unfold notifyHead
  by_cases hn : t.notifiedAt.isNone
  · rw [if_pos hn, fireWaiter_tickets, notifyOnce_tickets]
    exact setNotifiedAt_exists_uuid _ _ _ _ h
  · rw [if_neg hn, fireWaiter_tickets, notifyOnce_tickets]
    exact h

theorem utq_cases (fid : Nat) (s s2 : St)
    (h : updateTicketQueue fid s = some s2) :
    let s0 := touchFifo fid s
    (selMin (ticketsOf fid s0) = none ∧ s2 = s0) ∨
    (∃ t0 r0, selMin (ticketsOf fid s0) = some (t0, r0) ∧
      ((checkTimeoutsStale s.now t0 = true ∧
         ((selMin r0 = none ∧ s2 = evictHead t0 s0) ∨
          (∃ t1 r1, selMin r0 = some (t1, r1) ∧
            s2 = notifyHead t1 (evictHead t0 s0)))) ∨
       (checkTimeoutsStale s.now t0 = false ∧ s2 = notifyHead t0 s0))) := by
  intro s0
  unfold updateTicketQueue at h
  cases hf : s.fifos.find? (fun f => f.uuid == fid) with
  | none => rw [hf] at h; exact absurd h (by simp)
  | some f =>
    rw [hf] at h
    simp only at h
    cases hsel : selMin (ticketsOf fid (touchFifo fid s)) with
    | none =>
      rw [hsel] at h
      simp only at h
      exact Or.inl ⟨rfl, (Option.some.inj h).symm⟩
    | some p =>
      rcases p with ⟨t0, r0⟩
      rw [hsel] at h
      simp only at h
      by_cases hst : checkTimeoutsStale (touchFifo fid s).now t0 = true
      · rw [if_pos hst] at h
        cases hsel2 : selMin r0 with
        | none =>
          rw [hsel2] at h
          simp only at h
          exact Or.inr ⟨t0, r0, rfl,
            Or.inl ⟨hst, Or.inl ⟨hsel2, (Option.some.inj h).symm⟩⟩⟩
        | some q =>
          rcases q with ⟨t1, r1⟩
          rw [hsel2] at h
          simp only at h
          exact Or.inr ⟨t0, r0, rfl,
            Or.inl ⟨hst, Or.inr ⟨t1, r1, hsel2, (Option.some.inj h).symm⟩⟩⟩
      · rw [if_neg hst] at h
        exact Or.inr ⟨t0, r0, rfl,
          Or.inr ⟨by simpa using hst, (Option.some.inj h).symm⟩⟩

theorem evictHead_fired_sub (t : Ticket) (s : St) :
    ∀ c ∈ (evictHead t s).fired, c ∈ s.fired ∨ ∃ p ∈ s.waiters, p.2 = c := by
  intro c hc
  unfold evictHead at hc
  have h2 := fireWaiter_fired_sub t.uuid _ c hc
  simpa [deleteTicket] using h2

theorem evictHead_fired_mono (t : Ticket) (s : St) :
    ∀ c ∈ s.fired, c ∈ (evictHead t s).fired := by
  intro c hc
  unfold evictHead
  exact fireWaiter_fired_mono t.uuid _ c hc

theorem evictHead_waiters_sub (t : Ticket) (s : St) :
    ∀ p ∈ (evictHead t s).waiters, p ∈ s.waiters := by
  intro p hp
  unfold evictHead at hp
  have h2 := fireWaiter_waiters_sub t.uuid _ p hp
  simpa [deleteTicket] using h2

theorem utq_fired_sub (fid : Nat) (s s2 : St)
    (h : updateTicketQueue fid s = some s2) :
    ∀ c ∈ s2.fired, c ∈ s.fired ∨ ∃ p ∈ s.waiters, p.2 = c := by
  intro c hc
  have hw0 : (touchFifo fid s).waiters = s.waiters := rfl
  have hf0 : (touchFifo fid s).fired = s.fired := rfl
  rcases utq_cases fid s s2 h with ⟨_, rfl⟩ | ⟨t0, r0, _, ⟨_, ⟨_, rfl⟩ | ⟨t1, r1, _, rfl⟩⟩ | ⟨_, rfl⟩⟩
  · exact Or.inl hc
  · have h2 := evictHead_fired_sub t0 (touchFifo fid s) c hc
    rw [hw0, hf0] at h2
    exact h2
  · have h2 := notifyHead_fired_sub t1 _ c hc
    rcases h2 with h2 | ⟨p, hp, hpc⟩
    · have h3 := evictHead_fired_sub t0 (touchFifo fid s) c h2
      rw [hw0, hf0] at h3
      exact h3
    · have h3 := evictHead_waiters_sub t0 (touchFifo fid s) p hp
      rw [hw0] at h3
      exact Or.inr ⟨p, h3, hpc⟩
  · have h2 := notifyHead_fired_sub t0 _ c hc
    rw [hw0, hf0] at h2
    exact h2

theorem utq_waiters_sub (fid : Nat) (s s2 : St)
    (h : updateTicketQueue fid s = some s2) :
    ∀ p ∈ s2.waiters, p ∈ s.waiters := by
  intro p hp
  have hw0 : (touchFifo fid s).waiters = s.waiters := rfl
  rcases utq_cases fid s s2 h with ⟨_, rfl⟩ | ⟨t0, r0, _, ⟨_, ⟨_, rfl⟩ | ⟨t1, r1, _, rfl⟩⟩ | ⟨_, rfl⟩⟩
  · exact hp
  · have h2 := evictHead_waiters_sub t0 (touchFifo fid s) p hp
    rw [hw0] at h2
    exact h2
  · have h2 := notifyHead_waiters_sub t1 _ p hp
    have h3 := evictHead_waiters_sub t0 (touchFifo fid s) p h2
    rw [hw0] at h3
    exact h3
  · have h2 := notifyHead_waiters_sub t0 _ p hp
    rw [hw0] at h2
    exact h2

theorem lookupWaiter_mem (u c : Nat) (s : St) (h : lookupWaiter u s = some c) :
    ∃ q ∈ s.waiters, q.1 = u ∧ q.2 = c := by
  unfold lookupWaiter at h
  cases hf : s.waiters.find? (fun p => p.1 == u) with
  | none => rw [hf] at h; simp at h
  | some q =>
    rw [hf] at h
    simp at h
    refine ⟨q, List.mem_of_find?_eq_some hf, ?_, h⟩
    have := List.find?_some hf
    simpa using this

/-- C2 (amended): a successful `done` call removes the ticket's waiter
registration without firing it — the channel that was registered for
the ticket is not closed by the call (assuming, as the registry
guarantees, that distinct registrations use distinct channels), and no
registration for the ticket remains afterwards. -/
theorem c2_done_never_fires_the_removed_waiter (fid tu : Nat) (s s2 : St) (c : Nat)
    (hd : doneCall fid tu s = some s2)
    (hw : lookupWaiter tu s = some c)
    (hnd : (s.waiters.map (fun p => p.2)).Nodup)
    (hcf : c ∉ s.fired) :
    c ∉ s2.fired ∧ ∀ p ∈ s2.waiters, p.1 ≠ tu := by
  unfold doneCall at hd
  cases hft : s.tickets.find? (fun t => t.uuid == tu) with
  | none => rw [hft] at hd; exact absurd hd (by simp)
  | some t =>
    rw [hft] at hd
    simp only at hd
    split at hd
    case isFalse => exact absurd hd (by simp)
    case isTrue hfe =>
      have hwPre : (deleteTicket tu (removeWaiter tu s)).waiters
          = s.waiters.filter (fun q => ¬ q.1 == tu) := rfl
      have hfPre : (deleteTicket tu (removeWaiter tu s)).fired = s.fired := rfl
      constructor
      · intro hc
        rcases utq_fired_sub _ _ _ hd c hc with h2 | ⟨p, hp, hpc⟩
        · rw [hfPre] at h2
          exact hcf h2
        · rw [hwPre] at hp
          have hpmem : p ∈ s.waiters := List.mem_of_mem_filter hp
          have hpne := List.of_mem_filter hp
          rcases lookupWaiter_mem tu c s hw with ⟨q, hq, hq1, hq2⟩
          have hpq : p = q :=
            List.inj_on_of_nodup_map hnd hpmem hq (by rw [hpc, hq2])
          rw [hpq, hq1] at hpne
          simp at hpne
      · intro p hp
        have h2 := utq_waiters_sub _ _ _ hd p hp
        rw [hwPre] at h2
        have h3 := List.of_mem_filter h2
        simpa using h3

/-- C2 amended witness: in the concrete state `trC4.1` (a caller parked
on non-head ticket 3), `done` on ticket 3 leaves channel 0 unfired and
no waiter registration for ticket 3. -/
theorem c2_done_never_fires_the_removed_waiter_witness :
    ¬ (0 : Nat) ∈ trC5.fired ∧ ∀ p ∈ trC5.waiters, p.1 ≠ 3 :=
  c2_done_never_fires_the_removed_waiter 1 3 trC4.1 trC5 0
    (by decide) (by decide) (by decide) (by decide)

theorem fireWaiter_fires (u c : Nat) (s : St) (hl : lookupWaiter u s = some c) :
    c ∈ (fireWaiter u s).fired := by
  unfold lookupWaiter at hl
  unfold fireWaiter
  cases hf : s.waiters.find? (fun p => p.1 == u) with
  | none => rw [hf] at hl; simp at hl
  | some q =>
    rw [hf] at hl
    simp at hl
    show c ∈ q.2 :: s.fired
    rw [hl]
    exact List.mem_cons_self _ _

theorem utq_survivor_or_fired (fid tu c : Nat) (s s2 : St)
    (h : updateTicketQueue fid s = some s2)
    (hl : lookupWaiter tu s = some c)
    (ht : ∃ t ∈ s.tickets, t.uuid = tu) :
    c ∈ s2.fired ∨ ∃ t ∈ s2.tickets, t.uuid = tu := by
  have hdel : ∀ t0 : Ticket, t0.uuid ≠ tu →
      ∃ t ∈ (evictHead t0 (touchFifo fid s)).tickets, t.uuid = tu := by
    intro t0 hne
    rcases ht with ⟨t, hmem, htu⟩
    refine ⟨t, ?_, htu⟩
    unfold evictHead
    rw [fireWaiter_tickets]
    refine List.mem_filter.mpr ⟨hmem, ?_⟩
    simp [htu]
    exact fun hh => hne hh.symm
  have hfire : ∀ t0 : Ticket, t0.uuid = tu →
      c ∈ (evictHead t0 (touchFifo fid s)).fired := by
    intro t0 he
    unfold evictHead
    rw [he]
    exact fireWaiter_fires tu c _ hl
  rcases utq_cases fid s s2 h with ⟨_, rfl⟩ |
    ⟨t0, r0, hsel, ⟨hst, ⟨_, rfl⟩ | ⟨t1, r1, hsel2, rfl⟩⟩ | ⟨hok, rfl⟩⟩
  · exact Or.inr ht
  · by_cases he : t0.uuid = tu
    · exact Or.inl (hfire t0 he)
    · exact Or.inr (hdel t0 he)
  · by_cases he : t0.uuid = tu
    · exact Or.inl (notifyHead_fired_mono t1 _ c (hfire t0 he))
    · exact Or.inr (notifyHead_exists_uuid t1 _ tu (hdel t0 he))
  · exact Or.inr (notifyHead_exists_uuid t0 _ tu ht)

/-- C8: the 408 branch of `wait` mutates nothing in the store (tickets,
fifos, waiters and fired signals are untouched), and for a wait call
whose signal has not fired the ticket is still present: the call's own
`updateTicketQueue` can only have deleted the ticket by firing the
waiter channel the call had just registered. -/
theorem c8_wait_timeout_preserves_ticket (fid tu : Nat) (s s2 : St) (ctx : WaitCtx)
    (h : waitStart fid tu s = some (s2, ctx)) :
    (waitTimeoutStep ctx s2).tickets = s2.tickets ∧
    (waitTimeoutStep ctx s2).fifos = s2.fifos ∧
    (waitTimeoutStep ctx s2).waiters = s2.waiters ∧
    (waitTimeoutStep ctx s2).fired = s2.fired ∧
    (ctx.chanId ∉ s2.fired → ∃ t ∈ s2.tickets, t.uuid = tu) := by
  refine ⟨rfl, rfl, rfl, rfl, ?_⟩
  intro hnc
  unfold waitStart at h
  cases hft : s.tickets.find? (fun t => t.uuid == tu) with
  | none => rw [hft] at h; exact absurd h (by simp)
  | some t =>
    rw [hft] at h
    simp only at h
    split at h
    case isFalse => exact absurd h (by simp)
    case isTrue hfe =>
      have htu : t.uuid = tu := by simpa using List.find?_some hft
      have hmem : t ∈ s.tickets := List.mem_of_find?_eq_some hft
      cases hlw : lookupWaiter tu s with
      | some c =>
        rw [hlw] at h
        simp only at h
        cases hu : updateTicketQueue t.fifoUUID
            { s with blocked := ⟨t, c, s.now⟩ :: s.blocked } with
        | none => rw [hu] at h; exact absurd h (by simp)
        | some sq =>
          rw [hu] at h
          simp only [Option.map] at h
          have hpair := Option.some.inj h
          have hs2 : sq = s2 := congrArg Prod.fst hpair
          have hctx : ({ snap := t, chanId := c, blockedAt := s.now } : WaitCtx) = ctx :=
            congrArg Prod.snd hpair
          have hchan : ctx.chanId = c := by rw [← hctx]
          rcases utq_survivor_or_fired t.fifoUUID tu c _ sq hu hlw ⟨t, hmem, htu⟩ with hc | hsur
          · rw [hchan] at hnc
            rw [hs2] at hc
            exact absurd hc hnc
          · rw [hs2] at hsur
            exact hsur
      | none =>
        rw [hlw] at h
        simp only at h
        cases hu : updateTicketQueue t.fifoUUID
            { s with waiters := (tu, s.nextChan) :: s.waiters,
                     nextChan := s.nextChan + 1,
                     blocked := ⟨t, s.nextChan, s.now⟩ :: s.blocked } with
        | none => rw [hu] at h; exact absurd h (by simp)
        | some sq =>
          rw [hu] at h
          simp only [Option.map] at h
          have hpair := Option.some.inj h
          have hs2 : sq = s2 := congrArg Prod.fst hpair
          have hctx : ({ snap := t, chanId := s.nextChan, blockedAt := s.now } : WaitCtx) = ctx :=
            congrArg Prod.snd hpair
          have hchan : ctx.chanId = s.nextChan := by rw [← hctx]
          have hlw2 : lookupWaiter tu
              { s with waiters := (tu, s.nextChan) :: s.waiters,
                       nextChan := s.nextChan + 1,
                       blocked := ⟨t, s.nextChan, s.now⟩ :: s.blocked } = some s.nextChan := by
            simp [lookupWaiter]
          rcases utq_survivor_or_fired t.fifoUUID tu s.nextChan _ sq hu hlw2
              ⟨t, hmem, htu⟩ with hc | hsur
          · rw [hchan] at hnc
            rw [hs2] at hc
            exact absurd hc hnc
          · rw [hs2] at hsur
            exact hsur

/-- C8 witness: the concrete parked call of trace C (ticket 3 is not
head, its channel 0 unfired) keeps ticket 3 in the store. -/
theorem c8_wait_timeout_preserves_ticket_witness :
    (waitTimeoutStep trC4.2 trC4.1).tickets = trC4.1.tickets ∧
    (waitTimeoutStep trC4.2 trC4.1).fifos = trC4.1.fifos ∧
    (waitTimeoutStep trC4.2 trC4.1).waiters = trC4.1.waiters ∧
    (waitTimeoutStep trC4.2 trC4.1).fired = trC4.1.fired ∧
    (trC4.2.chanId ∉ trC4.1.fired → ∃ t ∈ trC4.1.tickets, t.uuid = 3) :=
  c8_wait_timeout_preserves_ticket 1 3 trC3 trC4.1 trC4.2 (by decide)

/-- C7 (amended): after the signal fires, the wait handler re-checks
`checkTimeouts` once — against the ticket value loaded at the start of
the call (`ctx.snap`), not the current row: it returns 410 exactly when
that snapshot is stale at the current instant, and in the stale case it
performs no store mutation; only a snapshot-healthy resume proceeds to
the conditional acceptance and 200. -/
theorem c7_recheck_uses_snapshot (ctx : WaitCtx) (s : St) :
    ((waitResume ctx s).2 = 410 ↔ checkTimeoutsStale s.now ctx.snap = true) ∧
    ((waitResume ctx s).2 = 410 ∨ (waitResume ctx s).2 = 200) ∧
    (checkTimeoutsStale s.now ctx.snap = true →
      (waitResume ctx s).1.tickets = s.tickets ∧
      (waitResume ctx s).1.fifos = s.fifos) := by
  unfold waitResume
  dsimp only
  cases hc : checkTimeoutsStale s.now ctx.snap with
  | true => simp
  | false =>
    have hne : ¬ (false = true) := by simp
    rw [if_neg hne]
    refine ⟨?_, ?_, by simp⟩
    · split <;> simp
    · split <;> simp

/-- C7 amended witness: a snapshot that was already notified and is past
its accept deadline makes the resume return 410 with the store intact. -/
theorem c7_recheck_uses_snapshot_witness :
    (waitResume (⟨⟨9, 0, some 0, none, 0, 0, 5, 1⟩, 0, 0⟩ : WaitCtx)
        (tickStep 5 St.empty)).1.tickets = (tickStep 5 St.empty).tickets ∧
    (waitResume (⟨⟨9, 0, some 0, none, 0, 0, 5, 1⟩, 0, 0⟩ : WaitCtx)
        (tickStep 5 St.empty)).1.fifos = (tickStep 5 St.empty).fifos :=
  (c7_recheck_uses_snapshot ⟨⟨9, 0, some 0, none, 0, 0, 5, 1⟩, 0, 0⟩
    (tickStep 5 St.empty)).2.2 (by decide)

theorem ticketCall_cases (fid u : Nat) (s s2 : St)
    (h : ticketCall fid u s = some s2) :
    ∃ f, s.fifos.find? (fun g => g.uuid == fid) = some f ∧
      updateTicketQueue fid
        { s with tickets := s.tickets ++ [mkTicket u fid f s.now],
                 usedUuids := u :: s.usedUuids } = some s2 := by
  unfold ticketCall at h
  cases hf : s.fifos.find? (fun g => g.uuid == fid) with
  | none => rw [hf] at h; exact absurd h (by simp)
  | some f =>
    rw [hf] at h
    exact ⟨f, rfl, h⟩

theorem doneCall_cases (fid tu : Nat) (s s2 : St)
    (h : doneCall fid tu s = some s2) :
    ∃ t, s.tickets.find? (fun x => x.uuid == tu) = some t ∧
      (t.fifoUUID == fid) = true ∧
      updateTicketQueue t.fifoUUID (deleteTicket tu (removeWaiter tu s)) = some s2 := by
  unfold doneCall at h
  cases hft : s.tickets.find? (fun x => x.uuid == tu) with
  | none => rw [hft] at h; exact absurd h (by simp)
  | some t =>
    rw [hft] at h
    simp only at h
    split at h
    case isFalse => exact absurd h (by simp)
    case isTrue hfe => exact ⟨t, rfl, by simpa using hfe, h⟩

theorem waitStart_cases (fid tu : Nat) (s s2 : St) (ctx : WaitCtx)
    (h : waitStart fid tu s = some (s2, ctx)) :
    ∃ t, s.tickets.find? (fun x => x.uuid == tu) = some t ∧
      (t.fifoUUID == fid) = true ∧
      ((∃ c, lookupWaiter tu s = some c ∧ ctx = ⟨t, c, s.now⟩ ∧
          updateTicketQueue t.fifoUUID
            { s with blocked := ctx :: s.blocked } = some s2) ∨
       (lookupWaiter tu s = none ∧ ctx = ⟨t, s.nextChan, s.now⟩ ∧
          updateTicketQueue t.fifoUUID
            { s with waiters := (tu, s.nextChan) :: s.waiters,
                     nextChan := s.nextChan + 1,
                     blocked := ctx :: s.blocked } = some s2)) := by
  unfold waitStart at h
  cases hft : s.tickets.find? (fun x => x.uuid == tu) with
  | none => rw [hft] at h; exact absurd h (by simp)
  | some t =>
    rw [hft] at h
    simp only at h
    split at h
    case isFalse => exact absurd h (by simp)
    case isTrue hfe =>
      refine ⟨t, rfl, by simpa using hfe, ?_⟩
      cases hlw : lookupWaiter tu s with
      | some c =>
        rw [hlw] at h
        simp only at h
        cases hu : updateTicketQueue t.fifoUUID
            { s with blocked := ⟨t, c, s.now⟩ :: s.blocked } with
        | none => rw [hu] at h; exact absurd h (by simp)
        | some sq =>
          rw [hu] at h
          simp only [Option.map] at h
          have hpair := Option.some.inj h
          have hs2 : sq = s2 := congrArg Prod.fst hpair
          have hctx : ({ snap := t, chanId := c, blockedAt := s.now } : WaitCtx) = ctx :=
            congrArg Prod.snd hpair
          refine Or.inl ⟨c, rfl, hctx.symm, ?_⟩
          rw [← hctx, hu, hs2]
      | none =>
        rw [hlw] at h
        simp only at h
        cases hu : updateTicketQueue t.fifoUUID
            { s with waiters := (tu, s.nextChan) :: s.waiters,
                     nextChan := s.nextChan + 1,
                     blocked := ⟨t, s.nextChan, s.now⟩ :: s.blocked } with
        | none => rw [hu] at h; exact absurd h (by simp)
        | some sq =>
          rw [hu] at h
          simp only [Option.map] at h
          have hpair := Option.some.inj h
          have hs2 : sq = s2 := congrArg Prod.fst hpair
          have hctx : ({ snap := t, chanId := s.nextChan, blockedAt := s.now } : WaitCtx) = ctx :=
            congrArg Prod.snd hpair
          refine Or.inr ⟨rfl, hctx.symm, ?_⟩
          rw [← hctx, hu, hs2]

theorem fireWaiter_notifiers (u : Nat) (s : St) :
    (fireWaiter u s).notifiers = s.notifiers := by
  unfold fireWaiter
  cases hf : s.waiters.find? (fun p => p.1 == u) <;> rfl

theorem notifyOnce_nodup (u : Nat) (fa : Int) (s : St)
    (h : s.notifiers.Nodup) : (notifyOnce u fa s).notifiers.Nodup := by
  unfold notifyOnce
  split
  case isTrue => exact h
  case isFalse hmem => exact List.nodup_cons.mpr ⟨hmem, h⟩

theorem notifyHead_nodup (t : Ticket) (s : St)
    (h : s.notifiers.Nodup) : (notifyHead t s).notifiers.Nodup := by
  unfold notifyHead
  by_cases hn : t.notifiedAt.isNone
  · rw [if_pos hn, fireWaiter_notifiers]
    exact notifyOnce_nodup _ _ _ h
  · rw [if_neg hn, fireWaiter_notifiers]
    exact notifyOnce_nodup _ _ _ h

theorem utq_notifiers_nodup (fid : Nat) (s s2 : St)
    (h : updateTicketQueue fid s = some s2)
    (hn : s.notifiers.Nodup) : s2.notifiers.Nodup := by
  have hevict : ∀ t0 : Ticket, (evictHead t0 (touchFifo fid s)).notifiers = s.notifiers := by
    intro t0
    unfold evictHead
    rw [fireWaiter_notifiers]
    rfl
  rcases utq_cases fid s s2 h with ⟨_, rfl⟩ |
    ⟨t0, r0, hsel, ⟨hst, ⟨_, rfl⟩ | ⟨t1, r1, hsel2, rfl⟩⟩ | ⟨hok, rfl⟩⟩
  · exact hn
  · rw [hevict t0]; exact hn
  · refine notifyHead_nodup t1 _ ?_
    rw [hevict t0]; exact hn
  · exact notifyHead_nodup t0 _ hn

theorem reachable_notifiers_nodup (s : St) (h : Reachable s) :
    s.notifiers.Nodup := by
  induction h with
  | init => exact List.nodup_nil
  | tick s d hr hd ih => exact ih
  | newF s u wT aT dT uT ao hr hu ih => exact ih
  | newTicket s s2 fid u hr hu he ih =>
    rcases ticketCall_cases fid u s s2 he with ⟨f, _, hutq⟩
    exact utq_notifiers_nodup _ _ _ hutq ih
  | startWait s s2 fid tu ctx hr he ih =>
    rcases waitStart_cases fid tu s s2 ctx he with
      ⟨t, _, _, ⟨c, _, _, hutq⟩ | ⟨_, _, hutq⟩⟩
    · exact utq_notifiers_nodup _ _ _ hutq ih
    · exact utq_notifiers_nodup _ _ _ hutq ih
  | timeoutWait s ctx hr hmem hlt ih => exact ih
  | resumeWait s ctx hr hmem hfi ih =>
    unfold waitResume
    dsimp only
    split
    · exact ih
    · split
      · exact ih.erase _
      · exact ih
  | ticketDone s s2 fid tu hr he ih =>
    rcases doneCall_cases fid tu s s2 he with ⟨t, _, _, hutq⟩
    exact utq_notifiers_nodup _ _ _ hutq ih
  | timerFire s u fa hr hmem hle ih =>
    unfold timerFireStep
    dsimp only
    split
    · exact ih.erase _
    · split
      · cases hu : updateTicketQueue _ _ with
        | none => exact ih.erase u
        | some sq =>
          show sq.notifiers.Nodup
          exact utq_notifiers_nodup _ _ _ hu (ih.erase u)
      · exact ih.erase _
  | reap s hr ih => exact ih

/-- C6 (amended): at most one timer registration exists per ticket id
(`notifiers` has no duplicates in any reachable state) and arming is
idempotent while the registration exists; the fire path removes the
registration, drops a missing ticket silently (only the timer and the
registration disappear), and leaves the store untouched when the ticket
is healthy — `updateTicketQueue` runs only for a stale ticket. Pending
`AfterFunc` callbacks, however, are not cancelled when the registration
is dropped on acceptance, so two of them can coexist for one id. -/
theorem c6_single_flight_and_fire_behavior (u : Nat) (fa : Int) (s : St) :
    (u ∈ s.notifiers → notifyOnce u fa s = s) ∧
    (Reachable s → s.notifiers.Nodup) ∧
    (s.tickets.find? (fun t => t.uuid == u) = none →
      timerFireStep u fa s =
        { s with timers := s.timers.erase (u, fa),
                 notifiers := s.notifiers.erase u }) ∧
    (∀ t, s.tickets.find? (fun x => x.uuid == u) = some t →
      checkTimeoutsStale s.now t = false →
      timerFireStep u fa s =
        { s with timers := s.timers.erase (u, fa),
                 notifiers := s.notifiers.erase u }) := by
  refine ⟨?_, reachable_notifiers_nodup s, ?_, ?_⟩
  · intro hmem
    unfold notifyOnce
    rw [if_pos hmem]
  · intro hfind
    unfold timerFireStep
    dsimp only
    rw [hfind]
  · intro t hfind hok
    unfold timerFireStep
    dsimp only
    rw [hfind]
    simp only [hok]
    rfl

/-- C6 amended witness: in the reachable state `trA2` (ticket 2
registered), re-arming is a no-op, registrations are unique, a timer for
an unknown id only clears its bookkeeping, and a timer firing on the
healthy ticket 2 does the same. -/
theorem c6_single_flight_and_fire_behavior_witness :
    notifyOnce 2 77 trA2 = trA2 ∧
    trA2.notifiers.Nodup ∧
    timerFireStep 9 5 trA2 =
      { trA2 with timers := trA2.timers.erase (9, 5),
                  notifiers := trA2.notifiers.erase 9 } ∧
    timerFireStep 2 10 trA2 =
      { trA2 with timers := trA2.timers.erase (2, 10),
                  notifiers := trA2.notifiers.erase 2 } :=
  ⟨(c6_single_flight_and_fire_behavior 2 77 trA2).1 (by decide),
   (c6_single_flight_and_fire_behavior 2 77 trA2).2.1 reachA2,
   (c6_single_flight_and_fire_behavior 9 5 trA2).2.2.1 (by decide),
   (c6_single_flight_and_fire_behavior 2 10 trA2).2.2.2
     ⟨2, 0, some 0, none, 100, 10, 5, 1⟩ (by decide) (by decide)⟩

/-! The stable-minimum selection: specification and transport lemmas. -/

theorem selMin_eq_none (l : List Ticket) : selMin l = none ↔ l = [] := by
  cases l with
  | nil => simp [selMin]
  | cons t ts =>
    simp only [selMin]
    constructor
    · intro h
      exfalso
      cases hs : selMin ts with
      | none => rw [hs] at h; simp at h
      | some p =>
        rcases p with ⟨m, r⟩
        rw [hs] at h
        simp only at h
        split at h <;> simp at h
    · intro h
      simp at h

theorem selMin_mem (l : List Ticket) (m : Ticket) (r : List Ticket)
    (h : selMin l = some (m, r)) : m ∈ l := by
  induction l generalizing m r with
  | nil => simp [selMin] at h
  | cons t ts ih =>
    simp only [selMin] at h
    cases hs : selMin ts with
    | none =>
      rw [hs] at h
      simp at h
      simp [h.1]
    | some p =>
      rcases p with ⟨m2, r2⟩
      rw [hs] at h
      simp only at h
      split at h
      · have := (Prod.mk.injEq _ _ _ _).mp (Option.some.inj h)
        simp [this.1]
      · have := (Prod.mk.injEq _ _ _ _).mp (Option.some.inj h)
        exact List.mem_cons_of_mem _ (this.1 ▸ ih m2 r2 hs)

/-- Forward specification: the selected row splits the list into the
strictly-younger prefix and the not-older suffix. -/
theorem selMin_spec (l : List Ticket) (m : Ticket) (r : List Ticket)
    (h : selMin l = some (m, r)) :
    ∃ l1 l2, l = l1 ++ m :: l2 ∧ r = l1 ++ l2 ∧
      (∀ x ∈ l1, m.createdAt < x.createdAt) ∧
      (∀ x ∈ l2, m.createdAt ≤ x.createdAt) := by
  induction l generalizing m r with
  | nil => simp [selMin] at h
  | cons t ts ih =>
    simp only [selMin] at h
    cases hs : selMin ts with
    | none =>
      rw [hs] at h
      simp only [Option.some.injEq, Prod.mk.injEq] at h
      rcases h with ⟨hm, hr⟩
      have hts : ts = [] := (selMin_eq_none ts).mp hs
      subst hm hts hr
      exact ⟨[], [], rfl, rfl, by simp, by simp⟩
    | some p =>
      rcases p with ⟨m2, r2⟩
      rw [hs] at h
      simp only at h
      rcases ih m2 r2 hs with ⟨l1, l2, hts, hr2, hlt, hle⟩
      split at h
      case isTrue hcle =>
        simp only [Option.some.injEq, Prod.mk.injEq] at h
        rcases h with ⟨hm, hr⟩
        subst hm hr
        refine ⟨[], ts, rfl, rfl, by simp, ?_⟩
        intro x hx
        rw [hts] at hx
        rcases List.mem_append.mp hx with hx1 | hx2
        · exact le_trans hcle (le_of_lt (hlt x hx1))
        · rcases List.mem_cons.mp hx2 with hx2 | hx2
          · rw [hx2]; exact hcle
          · exact le_trans hcle (hle x hx2)
      case isFalse hcgt =>
        simp only [Option.some.injEq, Prod.mk.injEq] at h
        rcases h with ⟨hm, hr⟩
        subst hm hr
        refine ⟨t :: l1, l2, by rw [hts]; rfl, by rw [hr2]; rfl, ?_, hle⟩
        intro x hx
        rcases List.mem_cons.mp hx with hx | hx
        · rw [hx]; exact lt_of_not_ge hcgt
        · exact hlt x hx

/-- Backward specification: a split with those properties determines the
result of `selMin`. -/
theorem selMin_of_spec (l1 l2 : List Ticket) (m : Ticket)
    (hlt : ∀ x ∈ l1, m.createdAt < x.createdAt)
    (hle : ∀ x ∈ l2, m.createdAt ≤ x.createdAt) :
    selMin (l1 ++ m :: l2) = some (m, l1 ++ l2) := by
  induction l1 with
  | nil =>
    simp only [List.nil_append, selMin]
    cases hs : selMin l2 with
    | none =>
      have h2 : l2 = [] := (selMin_eq_none l2).mp hs
      subst h2
      rfl
    | some p =>
      rcases p with ⟨m2, r2⟩
      simp only
      rw [if_pos (hle m2 (selMin_mem l2 m2 r2 hs))]
  | cons a l1 ih =>
    have hlt2 : ∀ x ∈ l1, m.createdAt < x.createdAt := by
      intro x hx
      exact hlt x (List.mem_cons_of_mem _ hx)
    simp only [List.cons_append, selMin, List.append_eq]
    rw [ih hlt2]
    simp only
    rw [if_neg (not_le.mpr (hlt a (List.mem_cons_self _ _)))]

theorem selMin_min (l : List Ticket) (m : Ticket) (r : List Ticket)
    (h : selMin l = some (m, r)) : ∀ t ∈ l, m.createdAt ≤ t.createdAt := by
  rcases selMin_spec l m r h with ⟨l1, l2, hl, _, hlt, hle⟩
  intro t ht
  rw [hl] at ht
  rcases List.mem_append.mp ht with h1 | h2
  · exact le_of_lt (hlt t h1)
  · rcases List.mem_cons.mp h2 with h2 | h2
    · rw [h2]
    · exact hle t h2

theorem selMin_append_ge (l : List Ticket) (m a : Ticket) (r : List Ticket)
    (h : selMin l = some (m, r)) (ha : m.createdAt ≤ a.createdAt) :
    selMin (l ++ [a]) = some (m, r ++ [a]) := by
  rcases selMin_spec l m r h with ⟨l1, l2, hl, hr, hlt, hle⟩
  subst hl
  subst hr
  have hle2 : ∀ x ∈ l2 ++ [a], m.createdAt ≤ x.createdAt := by
    intro x hx
    rcases List.mem_append.mp hx with h1 | h2
    · exact hle x h1
    · rw [List.mem_singleton.mp h2]; exact ha
  have h2 := selMin_of_spec l1 (l2 ++ [a]) m hlt hle2
  have hassoc : l1 ++ m :: (l2 ++ [a]) = (l1 ++ m :: l2) ++ [a] := by simp
  rw [hassoc] at h2
  rw [h2]
  simp

theorem selMin_filter (l : List Ticket) (m : Ticket) (r : List Ticket)
    (p : Ticket → Bool) (h : selMin l = some (m, r)) (hm : p m = true) :
    selMin (l.filter p) = some (m, r.filter p) := by
  rcases selMin_spec l m r h with ⟨l1, l2, hl, hr, hlt, hle⟩
  subst hl
  subst hr
  rw [List.filter_append, List.filter_cons_of_pos hm, List.filter_append]
  exact selMin_of_spec (l1.filter p) (l2.filter p) m
    (fun x hx => hlt x (List.mem_of_mem_filter hx))
    (fun x hx => hle x (List.mem_of_mem_filter hx))

theorem selMin_map (g : Ticket → Ticket) (hg : ∀ t, (g t).createdAt = t.createdAt)
    (l : List Ticket) (m : Ticket) (r : List Ticket)
    (h : selMin l = some (m, r)) :
    selMin (l.map g) = some (g m, r.map g) := by
  rcases selMin_spec l m r h with ⟨l1, l2, hl, hr, hlt, hle⟩
  subst hl
  subst hr
  rw [List.map_append, List.map_cons, List.map_append]
  refine selMin_of_spec (l1.map g) (l2.map g) (g m) ?_ ?_
  · intro x hx
    rcases List.mem_map.mp hx with ⟨y, hy, hyx⟩
    rw [← hyx, hg, hg]
    exact hlt y hy
  · intro x hx
    rcases List.mem_map.mp hx with ⟨y, hy, hyx⟩
    rw [← hyx, hg, hg]
    exact hle y hy

theorem markNotified_uuid (u : Nat) (v : Int) (t : Ticket) :
    (markNotified u v t).uuid = t.uuid := by
  unfold markNotified; split <;> rfl

theorem markNotified_createdAt (u : Nat) (v : Int) (t : Ticket) :
    (markNotified u v t).createdAt = t.createdAt := by
  unfold markNotified; split <;> rfl

theorem markNotified_fifoUUID (u : Nat) (v : Int) (t : Ticket) :
    (markNotified u v t).fifoUUID = t.fifoUUID := by
  unfold markNotified; split <;> rfl

theorem markNotified_acceptedAt (u : Nat) (v : Int) (t : Ticket) :
    (markNotified u v t).acceptedAt = t.acceptedAt := by
  unfold markNotified; split <;> rfl

theorem markNotified_of_ne (u : Nat) (v : Int) (t : Ticket)
    (h : ¬ t.uuid = u) : markNotified u v t = t := by
  unfold markNotified
  rw [if_neg (by simpa using h)]

theorem markNotified_of_eq (u : Nat) (v : Int) (t : Ticket)
    (h : t.uuid = u) : markNotified u v t = { t with notifiedAt := some v } := by
  unfold markNotified
  rw [if_pos (by simpa using h)]

theorem markAccepted_uuid (u : Nat) (v : Int) (t : Ticket) :
    (markAccepted u v t).uuid = t.uuid := by
  unfold markAccepted; split <;> rfl

theorem markAccepted_createdAt (u : Nat) (v : Int) (t : Ticket) :
    (markAccepted u v t).createdAt = t.createdAt := by
  unfold markAccepted; split <;> rfl

theorem markAccepted_fifoUUID (u : Nat) (v : Int) (t : Ticket) :
    (markAccepted u v t).fifoUUID = t.fifoUUID := by
  unfold markAccepted; split <;> rfl

theorem markAccepted_notifiedAt (u : Nat) (v : Int) (t : Ticket) :
    (markAccepted u v t).notifiedAt = t.notifiedAt := by
  unfold markAccepted; split <;> rfl

theorem evictHead_tickets (t0 : Ticket) (s : St) :
    (evictHead t0 s).tickets = s.tickets.filter (fun x => ¬ x.uuid == t0.uuid) := by
  unfold evictHead
  rw [fireWaiter_tickets]
  rfl

theorem notifyHead_tickets_of_some (h : Ticket) (s : St)
    (hn : ¬ h.notifiedAt.isNone) : (notifyHead h s).tickets = s.tickets := by
  unfold notifyHead
  rw [if_neg hn, fireWaiter_tickets, notifyOnce_tickets]

theorem notifyHead_tickets_of_none (h : Ticket) (s : St)
    (hn : h.notifiedAt.isNone) :
    (notifyHead h s).tickets = s.tickets.map (markNotified h.uuid s.now) := by
  unfold notifyHead
  rw [if_pos hn, fireWaiter_tickets, notifyOnce_tickets]
  rfl

theorem mem_ticketsOf (fid : Nat) (s : St) (x : Ticket) :
    x ∈ ticketsOf fid s ↔ x ∈ s.tickets ∧ x.fifoUUID = fid := by
  simp [ticketsOf, List.mem_filter]

theorem ticket_uuid_inj (s : St)
    (hnd : (s.tickets.map (fun x => x.uuid)).Nodup)
    (x y : Ticket) (hx : x ∈ s.tickets) (hy : y ∈ s.tickets)
    (h : x.uuid = y.uuid) : x = y :=
  List.inj_on_of_nodup_map hnd hx hy h

theorem nodup_map_middle (l1 l2 : List Ticket) (m : Ticket)
    (hnd : ((l1 ++ m :: l2).map (fun x => x.uuid)).Nodup) :
    ∀ x ∈ l1 ++ l2, x.uuid ≠ m.uuid := by
  intro x hx heq
  rw [List.map_append, List.map_cons] at hnd
  have hmid := List.nodup_middle.mp hnd
  refine (List.nodup_cons.mp hmid).1 ?_
  rw [← heq, ← List.map_append]
  exact List.mem_map_of_mem _ hx

theorem selMin_rest_sub (l : List Ticket) (m : Ticket) (r : List Ticket)
    (h : selMin l = some (m, r)) : ∀ z ∈ r, z ∈ l := by
  rcases selMin_spec l m r h with ⟨l1, l2, hl, hr, _, _⟩
  subst hl
  subst hr
  intro z hz
  rcases List.mem_append.mp hz with h1 | h2
  · exact List.mem_append.mpr (Or.inl h1)
  · exact List.mem_append.mpr (Or.inr (List.mem_cons_of_mem _ h2))

theorem selMin_rest_of_mem (l : List Ticket) (m : Ticket) (r : List Ticket)
    (h : selMin l = some (m, r)) (z : Ticket) (hz : z ∈ l)
    (hne : z.uuid ≠ m.uuid) : z ∈ r := by
  rcases selMin_spec l m r h with ⟨l1, l2, hl, hr, _, _⟩
  subst hl
  subst hr
  rcases List.mem_append.mp hz with h1 | h2
  · exact List.mem_append.mpr (Or.inl h1)
  · rcases List.mem_cons.mp h2 with h2 | h2
    · exact absurd (congrArg Ticket.uuid h2) hne
    · exact List.mem_append.mpr (Or.inr h2)

theorem ticketsOf_touchFifo (fid fid2 : Nat) (s : St) :
    ticketsOf fid2 (touchFifo fid s) = ticketsOf fid2 s := rfl

/-- C9 (amended): a ticket that `updateTicketQueue` newly notifies is a
row of minimal `createdAt` among the surviving tickets of its FIFO — the
head is the first row by `createdAt` ascending (ties in scan order), and
a ticket is notified only when no strictly older ticket of the FIFO is
left. -/
theorem c9_head_is_oldest (fid : Nat) (s s2 : St) (t : Ticket)
    (hnd : (s.tickets.map (fun x => x.uuid)).Nodup)
    (h : updateTicketQueue fid s = some s2)
    (ht : t ∈ s2.tickets)
    (hnew : t.notifiedAt.isSome)
    (hold : ∀ x ∈ s.tickets, x.uuid = t.uuid → x.notifiedAt = none) :
    ∀ y ∈ s2.tickets, y.fifoUUID = fid → t.createdAt ≤ y.createdAt := by
  have hndOf : ((ticketsOf fid s).map (fun x => x.uuid)).Nodup := by
    refine List.Nodup.sublist ?_ hnd
    exact List.Sublist.map _ (List.filter_sublist _)
  rcases utq_cases fid s s2 h with ⟨hsel, rfl⟩ |
    ⟨t0, r0, hsel, ⟨hst, ⟨hsel2, rfl⟩ | ⟨t1, r1, hsel2, rfl⟩⟩ | ⟨hok, rfl⟩⟩
  · have hmem : t ∈ s.tickets := ht
    rw [hold t hmem rfl] at hnew
    simp at hnew
  · rw [evictHead_tickets] at ht
    have hmem : t ∈ s.tickets := List.mem_of_mem_filter ht
    rw [hold t hmem rfl] at hnew
    simp at hnew
  · rw [ticketsOf_touchFifo] at hsel
    have ht0mem : t0 ∈ ticketsOf fid s := selMin_mem _ _ _ hsel
    by_cases hn1 : t1.notifiedAt.isNone
    · rw [notifyHead_tickets_of_none t1 _ hn1] at ht
      rw [evictHead_tickets] at ht
      rcases List.mem_map.mp ht with ⟨x, hx, hxt⟩
      have hxmem : x ∈ s.tickets := List.mem_of_mem_filter hx
      by_cases hxu : x.uuid = t1.uuid
      · have ht1of : t1 ∈ ticketsOf fid s := by
          refine selMin_rest_sub _ _ _ hsel t1 ?_
          exact selMin_mem _ _ _ hsel2
        have ht1mem : t1 ∈ s.tickets := ((mem_ticketsOf fid s t1).mp ht1of).1
        have hxeq : x = t1 := ticket_uuid_inj s hnd x t1 hxmem ht1mem hxu
        subst hxeq
        rw [markNotified_of_eq _ _ _ hxu] at hxt
        intro y hy hyf
        rw [notifyHead_tickets_of_none x _ hn1, evictHead_tickets] at hy
        rcases List.mem_map.mp hy with ⟨z, hz, hzy⟩
        have hzmem : z ∈ s.tickets := List.mem_of_mem_filter hz
        have hzne := List.of_mem_filter hz
        have hzfid : z.fifoUUID = fid := by
          rw [← hyf, ← hzy, markNotified_fifoUUID]
        have hzof : z ∈ ticketsOf fid s := (mem_ticketsOf fid s z).mpr ⟨hzmem, hzfid⟩
        have hzr0 : z ∈ r0 := by
          refine selMin_rest_of_mem _ _ _ hsel z hzof ?_
          intro hzu
          rw [hzu] at hzne
          simp at hzne
        have hle := selMin_min r0 x r1 hsel2 z hzr0
        rw [← hxt, ← hzy, markNotified_createdAt]
        show x.createdAt ≤ z.createdAt
        exact hle
      · rw [markNotified_of_ne _ _ _ hxu] at hxt
        subst hxt
        rw [hold x hxmem rfl] at hnew
        simp at hnew
    · rw [notifyHead_tickets_of_some t1 _ hn1, evictHead_tickets] at ht
      have hmem : t ∈ s.tickets := List.mem_of_mem_filter ht
      rw [hold t hmem rfl] at hnew
      simp at hnew
  · rw [ticketsOf_touchFifo] at hsel
    have ht0of : t0 ∈ ticketsOf fid s := selMin_mem _ _ _ hsel
    have ht0mem : t0 ∈ s.tickets := ((mem_ticketsOf fid s t0).mp ht0of).1
    by_cases hn0 : t0.notifiedAt.isNone
    · rw [notifyHead_tickets_of_none t0 _ hn0] at ht
      rcases List.mem_map.mp ht with ⟨x, hx, hxt⟩
      have hxmem : x ∈ s.tickets := hx
      by_cases hxu : x.uuid = t0.uuid
      · have hxeq : x = t0 := ticket_uuid_inj s hnd x t0 hxmem ht0mem hxu
        subst hxeq
        rw [markNotified_of_eq _ _ _ hxu] at hxt
        intro y hy hyf
        rw [notifyHead_tickets_of_none x _ hn0] at hy
        rcases List.mem_map.mp hy with ⟨z, hz, hzy⟩
        have hzfid : z.fifoUUID = fid := by
          rw [← hyf, ← hzy, markNotified_fifoUUID]
        have hzof : z ∈ ticketsOf fid s := (mem_ticketsOf fid s z).mpr ⟨hz, hzfid⟩
        have hle := selMin_min _ _ _ hsel z hzof
        rw [← hxt, ← hzy, markNotified_createdAt]
        show x.createdAt ≤ z.createdAt
        exact hle
      · rw [markNotified_of_ne _ _ _ hxu] at hxt
        subst hxt
        rw [hold x hxmem rfl] at hnew
        simp at hnew
    · rw [notifyHead_tickets_of_some t0 _ hn0] at ht
      have hmem : t ∈ s.tickets := ht
      rw [hold t hmem rfl] at hnew
      simp at hnew

/-- C9 amended witness: on the two-ticket state `wS9` the engine
notifies ticket 7 (createdAt 0), which is no younger than ticket 8
(createdAt 1). -/
theorem c9_head_is_oldest_witness : (0 : Int) ≤ 1 := by
  have h := c9_head_is_oldest 1 wS9 wS9r
    { uuid := 7, createdAt := 0, notifiedAt := some 2, acceptedAt := none,
      waitTimeout := 100, acceptTimeout := 10, doneTimeout := 5, fifoUUID := 1 }
    (by decide) (by decide) (by decide) (by decide) (by decide)
    { uuid := 8, createdAt := 1, notifiedAt := none, acceptedAt := none,
      waitTimeout := 100, acceptTimeout := 10, doneTimeout := 5, fifoUUID := 1 }
    (by decide) (by decide)
  exact h

/-! Preservation of the invariant. -/

theorem ticketsOf_congr (fid : Nat) (s s2 : St) (h : s2.tickets = s.tickets) :
    ticketsOf fid s2 = ticketsOf fid s := by
  unfold ticketsOf
  rw [h]

theorem inv_congr (s s2 : St) (hI : SysInv s)
    (ht : s2.tickets = s.tickets) (hw : s2.waiters = s.waiters)
    (hf : s2.fired = s.fired) (hn : s2.nextChan = s.nextChan)
    (hb : ∀ ctx ∈ s2.blocked, ctx ∈ s.blocked)
    (hu : ∀ x ∈ s.usedUuids, x ∈ s2.usedUuids)
    (hnow : s.now ≤ s2.now) : SysInv s2 := by
  refine ⟨?_, ?_, ?_, ?_, ?_, ?_, ?_, ?_, ?_, ?_, ?_, ?_, ?_, ?_⟩
  · intro t hmem
    rw [ht] at hmem
    exact le_trans (hI.timeLe t hmem) hnow
  · rw [ht]; exact hI.uuidND
  · intro t hmem
    rw [ht] at hmem
    exact hu _ (hI.ticketsUsed t hmem)
  · intro t hmem hns
    rw [ht] at hmem
    rw [ticketsOf_congr _ _ _ ht]
    exact hI.headH t hmem hns
  · intro t hmem
    rw [ht] at hmem
    exact hI.accN t hmem
  · intro ctx hctx hcf t hmem
    rw [hf] at hcf
    rw [ht] at hmem
    exact hI.ctxN ctx (hb ctx hctx) hcf t hmem
  · intro ctx hctx
    exact hu _ (hI.ctxU ctx (hb ctx hctx))
  · intro p hp
    rw [hw] at hp
    rw [hf]
    exact hI.wUnf p hp
  · intro p hp
    rw [hw] at hp
    rw [hn]
    exact hI.wLt p hp
  · intro c hc
    rw [hf] at hc
    rw [hn]
    exact hI.fLt c hc
  · intro ctx hctx
    rw [hn]
    exact hI.bLt ctx (hb ctx hctx)
  · intro ctx hctx p hp
    rw [hw] at hp
    exact hI.ctxW ctx (hb ctx hctx) p hp
  · rw [hw]; exact hI.wKnd
  · rw [hw]; exact hI.wCnd

theorem markNotified_isSome_mono (u : Nat) (v : Int) (t : Ticket)
    (h : t.notifiedAt.isSome) : (markNotified u v t).notifiedAt.isSome := by
  unfold markNotified
  split
  · rfl
  · exact h

theorem map_uuid_markNotified (u : Nat) (v : Int) (l : List Ticket) :
    (l.map (markNotified u v)).map (fun x => x.uuid) = l.map (fun x => x.uuid) := by
  rw [List.map_map]
  exact List.map_congr_left (fun a _ => markNotified_uuid u v a)

theorem ticketsOf_deleteTicket (fid u : Nat) (s : St) :
    ticketsOf fid (deleteTicket u s)
      = (ticketsOf fid s).filter (fun x => ¬ x.uuid == u) := by
  unfold ticketsOf deleteTicket
  exact List.filter_comm _ _ _

theorem ticketsOf_evictHead (fid : Nat) (t0 : Ticket) (s : St) :
    ticketsOf fid (evictHead t0 s)
      = (ticketsOf fid s).filter (fun x => ¬ x.uuid == t0.uuid) := by
  unfold evictHead
  rw [ticketsOf_congr _ _ _ (fireWaiter_tickets _ _)]
  exact ticketsOf_deleteTicket fid t0.uuid s

theorem ticketsOf_setNotifiedAt (fid u : Nat) (v : Int) (s : St) :
    ticketsOf fid (setNotifiedAt u v s)
      = (ticketsOf fid s).map (markNotified u v) := by
  unfold ticketsOf setNotifiedAt
  rw [List.filter_map]
  congr 1
  refine List.filter_congr ?_
  intro x _
  simp [Function.comp, markNotified_fifoUUID]

theorem selMin_delete_head (l : List Ticket) (m : Ticket) (r : List Ticket)
    (hnd : (l.map (fun x => x.uuid)).Nodup)
    (h : selMin l = some (m, r)) :
    l.filter (fun x => ¬ x.uuid == m.uuid) = r := by
  rcases selMin_spec l m r h with ⟨l1, l2, hl, hr, _, _⟩
  subst hl
  subst hr
  have hne := nodup_map_middle l1 l2 m hnd
  rw [List.filter_append, List.filter_cons_of_neg (by simp)]
  rw [List.filter_eq_self.mpr, List.filter_eq_self.mpr]
  · intro x hx
    simpa using hne x (List.mem_append.mpr (Or.inr hx))
  · intro x hx
    simpa using hne x (List.mem_append.mpr (Or.inl hx))

theorem inv_fireWaiter (u : Nat) (s : St) (hI : SysInv s)
    (hu : ∀ t ∈ s.tickets, t.uuid = u → t.notifiedAt.isSome) :
    SysInv (fireWaiter u s) := by
  unfold fireWaiter
  cases hfind : s.waiters.find? (fun p => p.1 == u) with
  | none => exact hI
  | some q =>
    have hqmem : q ∈ s.waiters := List.mem_of_find?_eq_some hfind
    have hqu : q.1 = u := by simpa using List.find?_some hfind
    have hsubW : ∀ p, p ∈ s.waiters.filter (fun x => ¬ x.1 == u) → p ∈ s.waiters :=
      fun p hp => List.mem_of_mem_filter hp
    refine ⟨hI.timeLe, hI.uuidND, hI.ticketsUsed, hI.headH, hI.accN,
      ?_, hI.ctxU, ?_, ?_, ?_, hI.bLt, ?_, ?_, ?_⟩
    · intro ctx hctx hcf t hmem heq
      rcases List.mem_cons.mp hcf with hcf | hcf
      · have hq1 : q.1 = ctx.snap.uuid := hI.ctxW ctx hctx q hqmem hcf.symm
        refine hu t hmem ?_
        rw [heq, ← hq1, hqu]
      · exact hI.ctxN ctx hctx hcf t hmem heq
    · intro p hp
      have hpm := hsubW p hp
      have hpne := List.of_mem_filter hp
      intro hin
      rcases List.mem_cons.mp hin with hin | hin
      · have hpq : p = q :=
          List.inj_on_of_nodup_map hI.wCnd hpm hqmem hin
        rw [hpq, hqu] at hpne
        simp at hpne
      · exact hI.wUnf p hpm hin
    · intro p hp
      exact hI.wLt p (hsubW p hp)
    · intro c hc
      rcases List.mem_cons.mp hc with hc | hc
      · rw [hc]; exact hI.wLt q hqmem
      · exact hI.fLt c hc
    · intro ctx hctx p hp
      exact hI.ctxW ctx hctx p (hsubW p hp)
    · exact hI.wKnd.sublist (List.Sublist.map _ (List.filter_sublist _))
    · exact hI.wCnd.sublist (List.Sublist.map _ (List.filter_sublist _))

theorem inv_deleteHead (fid : Nat) (s : St) (hI : SysInv s)
    (t0 : Ticket) (r0 : List Ticket)
    (hsel : selMin (ticketsOf fid s) = some (t0, r0)) :
    SysInv (deleteTicket t0.uuid s) := by
  have ht0of : t0 ∈ ticketsOf fid s := selMin_mem _ _ _ hsel
  have ht0mem : t0 ∈ s.tickets := ((mem_ticketsOf fid s t0).mp ht0of).1
  have ht0fid : t0.fifoUUID = fid := ((mem_ticketsOf fid s t0).mp ht0of).2
  have hsub : ∀ t, t ∈ (deleteTicket t0.uuid s).tickets → t ∈ s.tickets :=
    fun t ht => List.mem_of_mem_filter ht
  refine ⟨?_, ?_, ?_, ?_, ?_, ?_, hI.ctxU, hI.wUnf, hI.wLt, hI.fLt,
    hI.bLt, hI.ctxW, hI.wKnd, hI.wCnd⟩
  · intro t ht
    exact hI.timeLe t (hsub t ht)
  · exact hI.uuidND.sublist (List.Sublist.map _ (List.filter_sublist _))
  · intro t ht
    exact hI.ticketsUsed t (hsub t ht)
  · intro t ht hns
    have htmem : t ∈ s.tickets := hsub t ht
    have htne : t.uuid ≠ t0.uuid := by
      have h2 := List.of_mem_filter ht
      simpa using h2
    rcases hI.headH t htmem hns with ⟨rt, hrt⟩
    by_cases hfid2 : t.fifoUUID = fid
    · exfalso
      rw [hfid2] at hrt
      have heq2 : some (t, rt) = some (t0, r0) := by rw [← hrt, ← hsel]
      have ht2 : t = t0 := congrArg Prod.fst (Option.some.inj heq2)
      exact htne (by rw [ht2])
    · rw [ticketsOf_deleteTicket]
      have hid : (ticketsOf t.fifoUUID s).filter (fun x => ¬ x.uuid == t0.uuid)
          = ticketsOf t.fifoUUID s := by
        refine List.filter_eq_self.mpr ?_
        intro x hx
        have hxmem : x ∈ s.tickets := ((mem_ticketsOf _ s x).mp hx).1
        have hxfid : x.fifoUUID = t.fifoUUID := ((mem_ticketsOf _ s x).mp hx).2
        by_contra hxe
        have hxu : x.uuid = t0.uuid := by simpa using hxe
        have hx0 : x = t0 := ticket_uuid_inj s hI.uuidND x t0 hxmem ht0mem hxu
        rw [hx0] at hxfid
        exact hfid2 (by rw [← hxfid, ht0fid])
      rw [hid]
      exact ⟨rt, hrt⟩
  · intro t ht
    exact hI.accN t (hsub t ht)
  · intro ctx hctx hcf t ht heq
    exact hI.ctxN ctx hctx hcf t (hsub t ht) heq

theorem inv_setNotified (s : St) (hI : SysInv s) (h : Ticket) (r : List Ticket)
    (hmem : h ∈ s.tickets)
    (hsel : selMin (ticketsOf h.fifoUUID s) = some (h, r)) :
    SysInv (setNotifiedAt h.uuid s.now s) := by
  refine ⟨?_, ?_, ?_, ?_, ?_, ?_, hI.ctxU, hI.wUnf, hI.wLt, hI.fLt,
    hI.bLt, hI.ctxW, hI.wKnd, hI.wCnd⟩
  · intro t ht
    rcases List.mem_map.mp ht with ⟨x, hx, hxt⟩
    rw [← hxt, markNotified_createdAt]
    exact hI.timeLe x hx
  · rw [show (setNotifiedAt h.uuid s.now s).tickets
        = s.tickets.map (markNotified h.uuid s.now) from rfl]
    rw [map_uuid_markNotified]
    exact hI.uuidND
  · intro t ht
    rcases List.mem_map.mp ht with ⟨x, hx, hxt⟩
    rw [← hxt, markNotified_uuid]
    exact hI.ticketsUsed x hx
  · intro t ht hns
    rcases List.mem_map.mp ht with ⟨x, hx, hxt⟩
    by_cases hxu : x.uuid = h.uuid
    · have hxh : x = h := ticket_uuid_inj s hI.uuidND x h hx hmem hxu
      subst hxh
      rw [markNotified_of_eq _ _ _ hxu] at hxt
      have hfid : t.fifoUUID = x.fifoUUID := by rw [← hxt]
      rw [hfid, ticketsOf_setNotifiedAt]
      refine ⟨r.map (markNotified x.uuid s.now), ?_⟩
      have h2 := selMin_map (markNotified x.uuid s.now)
        (markNotified_createdAt x.uuid s.now) _ _ _ hsel
      rw [h2, markNotified_of_eq _ _ _ rfl, hxt]
    · rw [markNotified_of_ne _ _ _ hxu] at hxt
      rw [← hxt] at hns
      rw [← hxt]
      rcases hI.headH x hx hns with ⟨rt, hrt⟩
      by_cases hfid2 : x.fifoUUID = h.fifoUUID
      · exfalso
        rw [hfid2] at hrt
        have heq2 : some (x, rt) = some (h, r) := by rw [← hrt, ← hsel]
        exact hxu (congrArg Ticket.uuid (congrArg Prod.fst (Option.some.inj heq2)))
      · rw [ticketsOf_setNotifiedAt]
        have hid : (ticketsOf x.fifoUUID s).map (markNotified h.uuid s.now)
            = ticketsOf x.fifoUUID s := by
          have h3 : ∀ x2 ∈ ticketsOf x.fifoUUID s,
              markNotified h.uuid s.now x2 = x2 := by
            intro x2 hx2
            refine markNotified_of_ne _ _ _ ?_
            intro hx2u
            have hx2mem : x2 ∈ s.tickets := ((mem_ticketsOf _ s x2).mp hx2).1
            have hx2fid : x2.fifoUUID = x.fifoUUID := ((mem_ticketsOf _ s x2).mp hx2).2
            have hx2h : x2 = h := ticket_uuid_inj s hI.uuidND x2 h hx2mem hmem hx2u
            rw [hx2h] at hx2fid
            exact hfid2 hx2fid.symm
          calc (ticketsOf x.fifoUUID s).map (markNotified h.uuid s.now)
              = (ticketsOf x.fifoUUID s).map id := List.map_congr_left h3
            _ = ticketsOf x.fifoUUID s := List.map_id _
        rw [hid]
        exact ⟨rt, hrt⟩
  · intro t ht hacc
    rcases List.mem_map.mp ht with ⟨x, hx, hxt⟩
    rw [← hxt, markNotified_acceptedAt] at hacc
    rw [← hxt]
    exact markNotified_isSome_mono _ _ _ (hI.accN x hx hacc)
  · intro ctx hctx hcf t ht heq
    rcases List.mem_map.mp ht with ⟨x, hx, hxt⟩
    rw [← hxt, markNotified_uuid] at heq
    rw [← hxt]
    exact markNotified_isSome_mono _ _ _ (hI.ctxN ctx hctx hcf x hx heq)

theorem inv_notifyOnce (u : Nat) (fa : Int) (s : St) (hI : SysInv s) :
    SysInv (notifyOnce u fa s) := by
  refine inv_congr s _ hI (notifyOnce_tickets u fa s) (notifyOnce_waiters u fa s)
    (notifyOnce_fired u fa s) ?_
    (fun ctx hc => by rw [notifyOnce_blocked] at hc; exact hc) ?_ ?_
  · unfold notifyOnce; split <;> rfl
  · intro x hx
    unfold notifyOnce; split <;> exact hx
  · unfold notifyOnce; split <;> exact le_refl _

theorem inv_touchFifo (fid : Nat) (s : St) (hI : SysInv s) :
    SysInv (touchFifo fid s) :=
  inv_congr s _ hI rfl rfl rfl rfl (fun _ hc => hc) (fun _ hx => hx) (le_refl _)

theorem inv_notifyHead (s : St) (hI : SysInv s) (h : Ticket) (r : List Ticket)
    (hmem : h ∈ s.tickets)
    (hsel : selMin (ticketsOf h.fifoUUID s) = some (h, r)) :
    SysInv (notifyHead h s) := by
  unfold notifyHead
  by_cases hn : h.notifiedAt.isNone
  · rw [if_pos hn]
    refine inv_fireWaiter _ _
      (inv_notifyOnce _ _ _ (inv_setNotified s hI h r hmem hsel)) ?_
    intro t ht heq
    rw [notifyOnce_tickets] at ht
    rcases List.mem_map.mp ht with ⟨x, hx, hxt⟩
    rw [← hxt, markNotified_uuid] at heq
    rw [← hxt, markNotified_of_eq _ _ _ heq]
    rfl
  · rw [if_neg hn]
    refine inv_fireWaiter _ _ (inv_notifyOnce _ _ _ hI) ?_
    intro t ht heq
    rw [notifyOnce_tickets] at ht
    have hth : t = h := ticket_uuid_inj s hI.uuidND t h ht hmem heq
    rw [hth]
    cases hno : h.notifiedAt with
    | none => exact absurd (by rw [hno]; rfl) hn
    | some v => rfl

theorem inv_utq (fid : Nat) (s s2 : St) (hI : SysInv s)
    (h : updateTicketQueue fid s = some s2) : SysInv s2 := by
  have hI0 : SysInv (touchFifo fid s) := inv_touchFifo fid s hI
  rcases utq_cases fid s s2 h with ⟨hsel, rfl⟩ |
    ⟨t0, r0, hsel, ⟨hst, ⟨hsel2, rfl⟩ | ⟨t1, r1, hsel2, rfl⟩⟩ | ⟨hok, rfl⟩⟩
  · exact hI0
  · refine inv_fireWaiter _ _ (inv_deleteHead fid _ hI0 t0 r0 hsel) ?_
    intro t ht heq
    have h2 := List.of_mem_filter ht
    rw [heq] at h2
    simp at h2
  · have hIE : SysInv (evictHead t0 (touchFifo fid s)) := by
      refine inv_fireWaiter _ _ (inv_deleteHead fid _ hI0 t0 r0 hsel) ?_
      intro t ht heq
      have h2 := List.of_mem_filter ht
      rw [heq] at h2
      simp at h2
    have hndOf : ((ticketsOf fid (touchFifo fid s)).map (fun x => x.uuid)).Nodup :=
      hI0.uuidND.sublist (List.Sublist.map _ (List.filter_sublist _))
    have hfilter : ticketsOf fid (evictHead t0 (touchFifo fid s)) = r0 := by
      rw [ticketsOf_evictHead]
      exact selMin_delete_head _ _ _ hndOf hsel
    have ht1r0 : t1 ∈ r0 := selMin_mem _ _ _ hsel2
    have ht1of : t1 ∈ ticketsOf fid (touchFifo fid s) :=
      selMin_rest_sub _ _ _ hsel t1 ht1r0
    have ht1fid : t1.fifoUUID = fid :=
      ((mem_ticketsOf fid _ t1).mp ht1of).2
    have ht1memE : t1 ∈ (evictHead t0 (touchFifo fid s)).tickets := by
      have h3 : t1 ∈ ticketsOf fid (evictHead t0 (touchFifo fid s)) := by
        rw [hfilter]; exact ht1r0
      exact ((mem_ticketsOf fid _ t1).mp h3).1
    have hselE : selMin (ticketsOf t1.fifoUUID (evictHead t0 (touchFifo fid s)))
        = some (t1, r1) := by
      rw [ht1fid, hfilter]
      exact hsel2
    exact inv_notifyHead _ hIE t1 r1 ht1memE hselE
  · have ht0of : t0 ∈ ticketsOf fid (touchFifo fid s) := selMin_mem _ _ _ hsel
    have ht0mem : t0 ∈ (touchFifo fid s).tickets :=
      ((mem_ticketsOf fid _ t0).mp ht0of).1
    have ht0fid : t0.fifoUUID = fid := ((mem_ticketsOf fid _ t0).mp ht0of).2
    have hsel0 : selMin (ticketsOf t0.fifoUUID (touchFifo fid s)) = some (t0, r0) := by
      rw [ht0fid]
      exact hsel
    exact inv_notifyHead _ hI0 t0 r0 ht0mem hsel0

theorem inv_tick (d : Int) (s : St) (hI : SysInv s) (hd : 0 ≤ d) :
    SysInv (tickStep d s) :=
  inv_congr s _ hI rfl rfl rfl rfl (fun _ hc => hc) (fun _ hx => hx)
    (by simpa [tickStep] using hd)

theorem inv_newFifo (u : Nat) (wT aT dT uT : Int) (ao : Bool) (s : St)
    (hI : SysInv s) : SysInv (newFifoSt u wT aT dT uT ao s) :=
  inv_congr s _ hI rfl rfl rfl rfl (fun _ hc => hc)
    (fun _ hx => List.mem_cons_of_mem _ hx) (le_refl _)

theorem inv_waitTimeout (ctx : WaitCtx) (s : St) (hI : SysInv s) :
    SysInv (waitTimeoutStep ctx s) :=
  inv_congr s _ hI rfl rfl rfl rfl
    (fun _ hc => List.mem_of_mem_erase hc) (fun _ hx => hx) (le_refl _)

theorem inv_removeWaiter (u : Nat) (s : St) (hI : SysInv s) :
    SysInv (removeWaiter u s) := by
  have hsub : ∀ p, p ∈ (removeWaiter u s).waiters → p ∈ s.waiters :=
    fun p hp => List.mem_of_mem_filter hp
  exact ⟨hI.timeLe, hI.uuidND, hI.ticketsUsed, hI.headH, hI.accN, hI.ctxN,
    hI.ctxU, fun p hp => hI.wUnf p (hsub p hp), fun p hp => hI.wLt p (hsub p hp),
    hI.fLt, hI.bLt, fun ctx hctx p hp => hI.ctxW ctx hctx p (hsub p hp),
    hI.wKnd.sublist (List.Sublist.map _ (List.filter_sublist _)),
    hI.wCnd.sublist (List.Sublist.map _ (List.filter_sublist _))⟩

theorem inv_deleteAny (u : Nat) (s : St) (hI : SysInv s) :
    SysInv (deleteTicket u s) := by
  have hsub : ∀ t, t ∈ (deleteTicket u s).tickets → t ∈ s.tickets :=
    fun t ht => List.mem_of_mem_filter ht
  refine ⟨fun t ht => hI.timeLe t (hsub t ht),
    hI.uuidND.sublist (List.Sublist.map _ (List.filter_sublist _)),
    fun t ht => hI.ticketsUsed t (hsub t ht), ?_,
    fun t ht => hI.accN t (hsub t ht),
    fun ctx hctx hcf t ht heq => hI.ctxN ctx hctx hcf t (hsub t ht) heq,
    hI.ctxU, hI.wUnf, hI.wLt, hI.fLt, hI.bLt, hI.ctxW, hI.wKnd, hI.wCnd⟩
  intro t ht hns
  have htmem : t ∈ s.tickets := hsub t ht
  have htp := List.of_mem_filter ht
  rcases hI.headH t htmem hns with ⟨rt, hrt⟩
  rw [ticketsOf_deleteTicket]
  exact ⟨rt.filter (fun x => ¬ x.uuid == u), selMin_filter _ _ _ _ hrt htp⟩

theorem map_uuid_markAccepted (u : Nat) (v : Int) (l : List Ticket) :
    (l.map (markAccepted u v)).map (fun x => x.uuid) = l.map (fun x => x.uuid) := by
  rw [List.map_map]
  exact List.map_congr_left (fun a _ => markAccepted_uuid u v a)

theorem ticketsOf_markAccepted (fid u : Nat) (v : Int) (l : List Ticket) :
    (l.map (markAccepted u v)).filter (fun t => t.fifoUUID == fid)
      = (l.filter (fun t => t.fifoUUID == fid)).map (markAccepted u v) := by
  rw [List.filter_map]
  congr 1
  refine List.filter_congr ?_
  intro x _
  simp [Function.comp, markAccepted_fifoUUID]

theorem markAccepted_cases (u : Nat) (v : Int) (x : Ticket) :
    markAccepted u v x = x ∨
    (x.uuid = u ∧ markAccepted u v x = { x with acceptedAt := some v }) := by
  unfold markAccepted
  split
  case isTrue hc =>
    refine Or.inr ⟨?_, rfl⟩
    have := (Bool.and_eq_true _ _).mp hc
    simpa using this.1
  case isFalse => exact Or.inl rfl

theorem inv_reap (s : St) (hI : SysInv s) : SysInv (reapStep s) := by
  have hsub : ∀ t, t ∈ (reapStep s).tickets → t ∈ s.tickets :=
    fun t ht => List.mem_of_mem_filter ht
  refine ⟨fun t ht => hI.timeLe t (hsub t ht),
    hI.uuidND.sublist (List.Sublist.map _ (List.filter_sublist _)),
    fun t ht => hI.ticketsUsed t (hsub t ht), ?_,
    fun t ht => hI.accN t (hsub t ht),
    fun ctx hctx hcf t ht heq => hI.ctxN ctx hctx hcf t (hsub t ht) heq,
    hI.ctxU, hI.wUnf, hI.wLt, hI.fLt, hI.bLt, hI.ctxW, hI.wKnd, hI.wCnd⟩
  intro t ht hns
  have htmem : t ∈ s.tickets := hsub t ht
  have htp := List.of_mem_filter ht
  rcases hI.headH t htmem hns with ⟨rt, hrt⟩
  have hof : ticketsOf t.fifoUUID (reapStep s)
      = (ticketsOf t.fifoUUID s).filter
          (fun x => (s.fifos.filter
            (fun f => ¬ (f.updatedAt + f.unusedDestroyTimeout < s.now))).any
            (fun f => f.uuid == x.fifoUUID)) := by
    unfold ticketsOf reapStep
    exact List.filter_comm _ _ _
  rw [hof]
  refine ⟨_, selMin_filter _ _ _ _ hrt htp⟩

theorem inv_acceptMap (ctx : WaitCtx) (s : St) (hI : SysInv s)
    (hmem : ctx ∈ s.blocked) (hfi : ctx.chanId ∈ s.fired) (s2 : St)
    (ht : s2.tickets = s.tickets.map (markAccepted ctx.snap.uuid s.now))
    (hw : s2.waiters = s.waiters) (hf : s2.fired = s.fired)
    (hn : s2.nextChan = s.nextChan)
    (hb : ∀ c2 ∈ s2.blocked, c2 ∈ s.blocked)
    (hus : s2.usedUuids = s.usedUuids) (hnow : s2.now = s.now) :
    SysInv s2 := by
  have hnotif : ∀ x ∈ s.tickets,
      (markAccepted ctx.snap.uuid s.now x).notifiedAt.isSome
        ↔ x.notifiedAt.isSome := by
    intro x _
    rw [markAccepted_notifiedAt]
  refine ⟨?_, ?_, ?_, ?_, ?_, ?_, ?_, ?_, ?_, ?_, ?_, ?_, ?_, ?_⟩
  · intro t htm
    rw [ht] at htm
    rcases List.mem_map.mp htm with ⟨x, hx, hxt⟩
    rw [← hxt, markAccepted_createdAt, hnow]
    exact hI.timeLe x hx
  · rw [ht, map_uuid_markAccepted]
    exact hI.uuidND
  · intro t htm
    rw [ht] at htm
    rcases List.mem_map.mp htm with ⟨x, hx, hxt⟩
    rw [← hxt, markAccepted_uuid, hus]
    exact hI.ticketsUsed x hx
  · intro t htm hns
    rw [ht] at htm
    rcases List.mem_map.mp htm with ⟨x, hx, hxt⟩
    rw [← hxt] at hns
    rw [(hnotif x hx)] at hns
    rcases hI.headH x hx hns with ⟨rx, hrx⟩
    have hfid : t.fifoUUID = x.fifoUUID := by
      rw [← hxt, markAccepted_fifoUUID]
    rw [hfid]
    have hof : ticketsOf x.fifoUUID s2
        = (ticketsOf x.fifoUUID s).map (markAccepted ctx.snap.uuid s.now) := by
      unfold ticketsOf
      rw [ht]
      exact ticketsOf_markAccepted _ _ _ _
    rw [hof]
    refine ⟨rx.map (markAccepted ctx.snap.uuid s.now), ?_⟩
    have h2 := selMin_map (markAccepted ctx.snap.uuid s.now)
      (markAccepted_createdAt ctx.snap.uuid s.now) _ _ _ hrx
    rw [h2, hxt]
  · intro t htm hacc
    rw [ht] at htm
    rcases List.mem_map.mp htm with ⟨x, hx, hxt⟩
    rw [← hxt]
    rw [markAccepted_notifiedAt]
    rcases markAccepted_cases ctx.snap.uuid s.now x with hcase | ⟨hxu, hcase⟩
    · rw [← hxt, hcase] at hacc
      exact hI.accN x hx hacc
    · exact hI.ctxN ctx hmem hfi x hx hxu
  · intro c2 hc2 hcf t htm heq
    rw [ht] at htm
    rw [hf] at hcf
    rcases List.mem_map.mp htm with ⟨x, hx, hxt⟩
    rw [← hxt, markAccepted_uuid] at heq
    rw [← hxt, markAccepted_notifiedAt]
    exact hI.ctxN c2 (hb c2 hc2) hcf x hx heq
  · intro c2 hc2
    rw [hus]
    exact hI.ctxU c2 (hb c2 hc2)
  · intro p hp
    rw [hw] at hp
    rw [hf]
    exact hI.wUnf p hp
  · intro p hp
    rw [hw] at hp
    rw [hn]
    exact hI.wLt p hp
  · intro c hc
    rw [hf] at hc
    rw [hn]
    exact hI.fLt c hc
  · intro c2 hc2
    rw [hn]
    exact hI.bLt c2 (hb c2 hc2)
  · intro c2 hc2 p hp
    rw [hw] at hp
    exact hI.ctxW c2 (hb c2 hc2) p hp
  · rw [hw]; exact hI.wKnd
  · rw [hw]; exact hI.wCnd

theorem inv_resume (ctx : WaitCtx) (s : St) (hI : SysInv s)
    (hmem : ctx ∈ s.blocked) (hfi : ctx.chanId ∈ s.fired) :
    SysInv (waitResume ctx s).1 := by
  unfold waitResume
  dsimp only
  cases hc : checkTimeoutsStale s.now ctx.snap with
  | true =>
    rw [if_pos rfl]
    exact inv_waitTimeout ctx s hI
  | false =>
    rw [if_neg (by simp)]
    split
    · refine inv_acceptMap ctx s hI hmem hfi _ rfl rfl rfl rfl ?_ rfl rfl
      intro c2 hc2
      exact List.mem_of_mem_erase hc2
    · refine inv_acceptMap ctx s hI hmem hfi _ rfl rfl rfl rfl ?_ rfl rfl
      intro c2 hc2
      exact List.mem_of_mem_erase hc2

theorem inv_ticketCall (fid u : Nat) (s s2 : St) (hI : SysInv s)
    (hfresh : u ∉ s.usedUuids) (h : ticketCall fid u s = some s2) :
    SysInv s2 := by
  rcases ticketCall_cases fid u s s2 h with ⟨f, hf, hutq⟩
  refine inv_utq _ _ _ ?_ hutq
  refine ⟨?_, ?_, ?_, ?_, ?_, ?_, ?_, hI.wUnf, hI.wLt, hI.fLt, hI.bLt,
    hI.ctxW, hI.wKnd, hI.wCnd⟩
  · intro t ht
    rcases List.mem_append.mp ht with h1 | h2
    · exact hI.timeLe t h1
    · rw [List.mem_singleton.mp h2]
      exact le_refl _
  · rw [List.map_append]
    refine List.nodup_append.mpr ⟨hI.uuidND, by simp, ?_⟩
    intro a ha hb
    rcases List.mem_map.mp ha with ⟨x, hx, hxa⟩
    simp only [List.map_cons, List.map_nil, List.mem_singleton] at hb
    have hau : a = u := by simpa [mkTicket] using hb
    have h4 := hI.ticketsUsed x hx
    rw [hxa, hau] at h4
    exact hfresh h4
  · intro t ht
    rcases List.mem_append.mp ht with h1 | h2
    · exact List.mem_cons_of_mem _ (hI.ticketsUsed t h1)
    · rw [List.mem_singleton.mp h2]
      exact List.mem_cons_self _ _
  · intro t ht hns
    rcases List.mem_append.mp ht with h1 | h2
    · rcases hI.headH t h1 hns with ⟨rt, hrt⟩
      have hof : ticketsOf t.fifoUUID
          { s with tickets := s.tickets ++ [mkTicket u fid f s.now],
                   usedUuids := u :: s.usedUuids }
          = ticketsOf t.fifoUUID s
            ++ [mkTicket u fid f s.now].filter (fun x => x.fifoUUID == t.fifoUUID) := by
        unfold ticketsOf
        rw [List.filter_append]
      rw [hof]
      by_cases hfid2 : fid = t.fifoUUID
      · have hfl : [mkTicket u fid f s.now].filter (fun x => x.fifoUUID == t.fifoUUID)
            = [mkTicket u fid f s.now] := by
          simp [mkTicket, hfid2]
        rw [hfl]
        refine ⟨rt ++ [mkTicket u fid f s.now], ?_⟩
        refine selMin_append_ge _ _ _ _ hrt ?_
        have h3 : (mkTicket u fid f s.now).createdAt = s.now := rfl
        rw [h3]
        exact hI.timeLe t h1
      · have hfl : [mkTicket u fid f s.now].filter (fun x => x.fifoUUID == t.fifoUUID)
            = [] := by
          simp [mkTicket]
          exact hfid2
        rw [hfl, List.append_nil]
        exact ⟨rt, hrt⟩
    · rw [List.mem_singleton.mp h2] at hns
      simp [mkTicket] at hns
  · intro t ht hacc
    rcases List.mem_append.mp ht with h1 | h2
    · exact hI.accN t h1 hacc
    · rw [List.mem_singleton.mp h2] at hacc
      simp [mkTicket] at hacc
  · intro ctx hctx hcf t ht heq
    rcases List.mem_append.mp ht with h1 | h2
    · exact hI.ctxN ctx hctx hcf t h1 heq
    · exfalso
      rw [List.mem_singleton.mp h2] at heq
      have h3 : (mkTicket u fid f s.now).uuid = u := rfl
      rw [h3] at heq
      rw [heq] at hfresh
      exact hfresh (hI.ctxU ctx hctx)
  · intro ctx hctx
    exact List.mem_cons_of_mem _ (hI.ctxU ctx hctx)

theorem inv_waitStart (fid tu : Nat) (s s2 : St) (ctx : WaitCtx) (hI : SysInv s)
    (h : waitStart fid tu s = some (s2, ctx)) : SysInv s2 := by
  rcases waitStart_cases fid tu s s2 ctx h with ⟨t, hft, hfe, hbr⟩
  have htmem : t ∈ s.tickets := List.mem_of_find?_eq_some hft
  have htu : t.uuid = tu := by simpa using List.find?_some hft
  rcases hbr with ⟨c, hlw, hctx, hutq⟩ | ⟨hlw, hctx, hutq⟩
  · refine inv_utq _ _ _ ?_ hutq
    subst hctx
    rcases lookupWaiter_mem tu c s hlw with ⟨q, hq, hq1, hq2⟩
    refine ⟨hI.timeLe, hI.uuidND, hI.ticketsUsed, hI.headH, hI.accN,
      ?_, ?_, hI.wUnf, hI.wLt, hI.fLt, ?_, ?_, hI.wKnd, hI.wCnd⟩
    · intro ctx2 hctx2 hcf t2 ht2 heq
      rcases List.mem_cons.mp hctx2 with hctx2 | hctx2
      · exfalso
        rw [hctx2] at hcf
        refine hI.wUnf q hq ?_
        rw [hq2]
        exact hcf
      · exact hI.ctxN ctx2 hctx2 hcf t2 ht2 heq
    · intro ctx2 hctx2
      rcases List.mem_cons.mp hctx2 with hctx2 | hctx2
      · rw [hctx2]
        exact hI.ticketsUsed t htmem
      · exact hI.ctxU ctx2 hctx2
    · intro ctx2 hctx2
      rcases List.mem_cons.mp hctx2 with hctx2 | hctx2
      · rw [hctx2]
        rw [← hq2]
        exact hI.wLt q hq
      · exact hI.bLt ctx2 hctx2
    · intro ctx2 hctx2 p hp hpc
      rcases List.mem_cons.mp hctx2 with hctx2 | hctx2
      · rw [hctx2] at hpc
        have hpq : p = q := by
          refine List.inj_on_of_nodup_map hI.wCnd hp hq ?_
          rw [hq2]
          exact hpc
        rw [hctx2, hpq, hq1, htu]
      · exact hI.ctxW ctx2 hctx2 p hp hpc
  · refine inv_utq _ _ _ ?_ hutq
    subst hctx
    have hnofind : ∀ p ∈ s.waiters, ¬ (p.1 == tu) = true := by
      have h2 : s.waiters.find? (fun p => p.1 == tu) = none := by
        unfold lookupWaiter at hlw
        cases hx : s.waiters.find? (fun p => p.1 == tu) with
        | none => rfl
        | some q => rw [hx] at hlw; simp at hlw
      exact List.find?_eq_none.mp h2
    refine ⟨hI.timeLe, hI.uuidND, hI.ticketsUsed, hI.headH, hI.accN,
      ?_, ?_, ?_, ?_, ?_, ?_, ?_, ?_, ?_⟩
    · intro ctx2 hctx2 hcf t2 ht2 heq
      rcases List.mem_cons.mp hctx2 with hctx2 | hctx2
      · exfalso
        rw [hctx2] at hcf
        exact absurd (hI.fLt _ hcf) (lt_irrefl _)
      · exact hI.ctxN ctx2 hctx2 hcf t2 ht2 heq
    · intro ctx2 hctx2
      rcases List.mem_cons.mp hctx2 with hctx2 | hctx2
      · rw [hctx2]
        exact hI.ticketsUsed t htmem
      · exact hI.ctxU ctx2 hctx2
    · intro p hp
      rcases List.mem_cons.mp hp with hp | hp
      · rw [hp]
        intro hin
        exact absurd (hI.fLt _ hin) (lt_irrefl _)
      · exact hI.wUnf p hp
    · intro p hp
      rcases List.mem_cons.mp hp with hp | hp
      · rw [hp]
        exact Nat.lt_succ_self _
      · exact Nat.lt_trans (hI.wLt p hp) (Nat.lt_succ_self _)
    · intro c2 hc2
      exact Nat.lt_trans (hI.fLt c2 hc2) (Nat.lt_succ_self _)
    · intro ctx2 hctx2
      rcases List.mem_cons.mp hctx2 with hctx2 | hctx2
      · rw [hctx2]
        exact Nat.lt_succ_self _
      · exact Nat.lt_trans (hI.bLt ctx2 hctx2) (Nat.lt_succ_self _)
    · intro ctx2 hctx2 p hp hpc
      rcases List.mem_cons.mp hctx2 with hctx2 | hctx2
      · rcases List.mem_cons.mp hp with hp | hp
        · rw [hctx2, hp, htu]
        · exfalso
          rw [hctx2] at hpc
          have hlt := hI.wLt p hp
          have hpc2 : p.2 = s.nextChan := hpc
          rw [hpc2] at hlt
          exact lt_irrefl _ hlt
      · rcases List.mem_cons.mp hp with hp | hp
        · exfalso
          rw [hp] at hpc
          have hpc2 : s.nextChan = ctx2.chanId := hpc
          have hlt := hI.bLt ctx2 hctx2
          rw [← hpc2] at hlt
          exact lt_irrefl _ hlt
        · exact hI.ctxW ctx2 hctx2 p hp hpc
    · rw [List.map_cons]
      refine List.nodup_cons.mpr ⟨?_, hI.wKnd⟩
      intro hin
      rcases List.mem_map.mp hin with ⟨p, hp, hpt⟩
      have := hnofind p hp
      rw [hpt] at this
      simp at this
    · rw [List.map_cons]
      refine List.nodup_cons.mpr ⟨?_, hI.wCnd⟩
      intro hin
      rcases List.mem_map.mp hin with ⟨p, hp, hpt⟩
      have hlt := hI.wLt p hp
      have hpt2 : p.2 = s.nextChan := hpt
      rw [hpt2] at hlt
      exact lt_irrefl _ hlt

theorem inv_done (fid tu : Nat) (s s2 : St) (hI : SysInv s)
    (h : doneCall fid tu s = some s2) : SysInv s2 := by
  rcases doneCall_cases fid tu s s2 h with ⟨t, hft, hfe, hutq⟩
  exact inv_utq _ _ _ (inv_deleteAny tu _ (inv_removeWaiter tu s hI)) hutq

theorem inv_timerFire (u : Nat) (fa : Int) (s : St) (hI : SysInv s) :
    SysInv (timerFireStep u fa s) := by
  have hI1 : SysInv
      { s with timers := s.timers.erase (u, fa), notifiers := s.notifiers.erase u } :=
    inv_congr s _ hI rfl rfl rfl rfl (fun _ hc => hc) (fun _ hx => hx) (le_refl _)
  unfold timerFireStep
  dsimp only
  split
  · exact hI1
  · split
    · cases hu2 : updateTicketQueue _ _ with
      | none => exact hI1
      | some sq =>
        show SysInv sq
        exact inv_utq _ _ _ hI1 hu2
    · exact hI1

theorem inv_empty : SysInv St.empty :=
  ⟨fun t ht => absurd ht (List.not_mem_nil t),
   List.nodup_nil,
   fun t ht => absurd ht (List.not_mem_nil t),
   fun t ht _ => absurd ht (List.not_mem_nil t),
   fun t ht _ => absurd ht (List.not_mem_nil t),
   fun ctx hctx _ _ _ _ => absurd hctx (List.not_mem_nil ctx),
   fun ctx hctx => absurd hctx (List.not_mem_nil ctx),
   fun p hp => absurd hp (List.not_mem_nil p),
   fun p hp => absurd hp (List.not_mem_nil p),
   fun c hc => absurd hc (List.not_mem_nil c),
   fun ctx hctx => absurd hctx (List.not_mem_nil ctx),
   fun ctx hctx _ _ _ => absurd hctx (List.not_mem_nil ctx),
   List.nodup_nil, List.nodup_nil⟩

theorem reachable_inv (s : St) (h : Reachable s) : SysInv s := by
  induction h with
  | init => exact inv_empty
  | tick s d hr hd ih => exact inv_tick d s ih hd
  | newF s u wT aT dT uT ao hr hu ih => exact inv_newFifo u wT aT dT uT ao s ih
  | newTicket s s2 fid u hr hu he ih => exact inv_ticketCall fid u s s2 ih hu he
  | startWait s s2 fid tu ctx hr he ih => exact inv_waitStart fid tu s s2 ctx ih he
  | timeoutWait s ctx hr hmem hlt ih => exact inv_waitTimeout ctx s ih
  | resumeWait s ctx hr hmem hfi ih => exact inv_resume ctx s ih hmem hfi
  | ticketDone s s2 fid tu hr he ih => exact inv_done fid tu s s2 ih he
  | timerFire s u fa hr hmem hle ih => exact inv_timerFire u fa s ih
  | reap s hr ih => exact inv_reap s ih

theorem countP_le_one (l : List Ticket) (p : Ticket → Bool) (hnd : l.Nodup)
    (huniq : ∀ a ∈ l, p a = true → ∀ b ∈ l, p b = true → a = b) :
    l.countP p ≤ 1 := by
  induction l with
  | nil => simp
  | cons a l ih =>
    rw [List.countP_cons]
    by_cases hpa : p a = true
    · have hzero : l.countP p = 0 := by
        rw [List.countP_eq_zero]
        intro b hb hpb
        have hba : b = a := huniq b (List.mem_cons_of_mem _ hb) hpb a
          (List.mem_cons_self _ _) hpa
        rw [hba] at hb
        exact (List.nodup_cons.mp hnd).1 hb
      rw [hzero, hpa]
      simp
    · have hpa2 : p a = false := by simpa using hpa
      rw [hpa2]
      have h2 : (if (false = true) then 1 else 0) = 0 := by simp
      rw [h2, Nat.add_zero]
      refine ih (List.nodup_cons.mp hnd).2 ?_
      intro x hx hpx y hy hpy
      exact huniq x (List.mem_cons_of_mem _ hx) hpx y (List.mem_cons_of_mem _ hy) hpy

/-- C5: in every reachable state of the interleaved system, each FIFO
holds at most one ticket that is notified but not yet accepted, and at
most one ticket that is accepted: every notified ticket is the stable
queue head of its FIFO, accepted tickets are notified, and the head is
unique. -/
theorem c5_at_most_one_active_head (s : St) (h : Reachable s) (fid : Nat) :
    s.tickets.countP
      (fun t => t.fifoUUID == fid && t.notifiedAt.isSome && t.acceptedAt.isNone) ≤ 1 ∧
    s.tickets.countP (fun t => t.fifoUUID == fid && t.acceptedAt.isSome) ≤ 1 := by
  have hI := reachable_inv s h
  have hnd : s.tickets.Nodup := List.Nodup.of_map _ hI.uuidND
  have hkey : ∀ a ∈ s.tickets, a.fifoUUID = fid → a.notifiedAt.isSome →
      ∀ b ∈ s.tickets, b.fifoUUID = fid → b.notifiedAt.isSome → a = b := by
    intro a ha haf han b hb hbf hbn
    rcases hI.headH a ha han with ⟨ra, hra⟩
    rcases hI.headH b hb hbn with ⟨rb, hrb⟩
    rw [haf] at hra
    rw [hbf] at hrb
    have h2 : some (a, ra) = some (b, rb) := by rw [← hra, ← hrb]
    exact congrArg Prod.fst (Option.some.inj h2)
  constructor
  · refine countP_le_one _ _ hnd ?_
    intro a ha hpa b hb hpb
    simp only [Bool.and_eq_true, beq_iff_eq] at hpa hpb
    exact hkey a ha hpa.1.1 hpa.1.2 b hb hpb.1.1 hpb.1.2
  · refine countP_le_one _ _ hnd ?_
    intro a ha hpa b hb hpb
    simp only [Bool.and_eq_true, beq_iff_eq] at hpa hpb
    exact hkey a ha hpa.1 (hI.accN a ha hpa.2) b hb hpb.1
      (hI.accN b hb hpb.2)

/-- C5 witness: the invariant evaluated in the reachable state `trB3`
(two live tickets in fifo 1). -/
theorem c5_at_most_one_active_head_witness :
    trB3.tickets.countP
      (fun t => t.fifoUUID == 1 && t.notifiedAt.isSome && t.acceptedAt.isNone) ≤ 1 ∧
    trB3.tickets.countP (fun t => t.fifoUUID == 1 && t.acceptedAt.isSome) ≤ 1 :=
  c5_at_most_one_active_head trB3 reachB3 1

theorem find?_map_pres {α : Type} (g : α → α) (p : α → Bool)
    (hp : ∀ x, p (g x) = p x) (l : List α) :
    (l.map g).find? p = (l.find? p).map g := by
  induction l with
  | nil => rfl
  | cons a l ih =>
    rw [List.map_cons]
    by_cases h : p a = true
    · rw [List.find?_cons_of_pos _ (by rw [hp]; exact h), List.find?_cons_of_pos _ h]
      rfl
    · rw [List.find?_cons_of_neg _ (by rw [hp]; simpa using h),
        List.find?_cons_of_neg _ (by simpa using h)]
      exact ih

theorem fireWaiter_of_none (u : Nat) (s : St)
    (h : s.waiters.find? (fun p => p.1 == u) = none) : fireWaiter u s = s := by
  unfold fireWaiter
  rw [h]

theorem notifyHead_fires (h : Ticket) (s : St) (c : Nat)
    (hl : lookupWaiter h.uuid s = some c) : c ∈ (notifyHead h s).fired := by
  unfold notifyHead
  by_cases hn : h.notifiedAt.isNone
  · rw [if_pos hn]
    refine fireWaiter_fires _ _ _ ?_
    unfold lookupWaiter
    rw [notifyOnce_waiters]
    exact hl
  · rw [if_neg hn]
    refine fireWaiter_fires _ _ _ ?_
    unfold lookupWaiter
    rw [notifyOnce_waiters]
    exact hl

theorem notifyHead_waiters_of_none (h : Ticket) (s : St)
    (hw : s.waiters.find? (fun p => p.1 == h.uuid) = none) :
    (notifyHead h s).waiters = s.waiters := by
  unfold notifyHead
  by_cases hn : h.notifiedAt.isNone
  · rw [if_pos hn]
    rw [fireWaiter_of_none _ _ (by rw [notifyOnce_waiters]; exact hw)]
    rw [notifyOnce_waiters]
    rfl
  · rw [if_neg hn]
    rw [fireWaiter_of_none _ _ (by rw [notifyOnce_waiters]; exact hw)]
    rw [notifyOnce_waiters]

theorem find?_append_unique (p : Ticket → Bool) (l : List Ticket) (a : Ticket)
    (hl : ∀ x ∈ l, p x = false) (ha : p a = true) :
    (l ++ [a]).find? p = some a := by
  induction l with
  | nil =>
    rw [List.nil_append]
    exact List.find?_cons_of_pos _ ha
  | cons b l ih =>
    rw [List.cons_append,
      List.find?_cons_of_neg _ (by simp [hl b (List.mem_cons_self _ _)])]
    exact ih (fun x hx => hl x (List.mem_cons_of_mem _ hx))

theorem filter_fifo_markNotified (fid u : Nat) (v : Int) (l : List Ticket) :
    (l.map (markNotified u v)).filter (fun t => t.fifoUUID == fid)
      = (l.filter (fun t => t.fifoUUID == fid)).map (markNotified u v) := by
  rw [List.filter_map]
  congr 1
  refine List.filter_congr ?_
  intro x _
  simp [Function.comp, markNotified_fifoUUID]

theorem notifyOnce_fifos (u : Nat) (fa : Int) (s : St) :
    (notifyOnce u fa s).fifos = s.fifos := by
  unfold notifyOnce; split <;> rfl

theorem fireWaiter_fifos (u : Nat) (s : St) :
    (fireWaiter u s).fifos = s.fifos := by
  unfold fireWaiter
  cases hf : s.waiters.find? (fun p => p.1 == u) <;> rfl

theorem notifyHead_fifos (t : Ticket) (s : St) :
    (notifyHead t s).fifos = s.fifos := by
  unfold notifyHead
  by_cases hn : t.notifiedAt.isNone
  · rw [if_pos hn, fireWaiter_fifos, notifyOnce_fifos]
    rfl
  · rw [if_neg hn, fireWaiter_fifos, notifyOnce_fifos]

theorem touchFifo_find (fid fid2 : Nat) (s : St) (f : Fifo)
    (hf : s.fifos.find? (fun g => g.uuid == fid) = some f) :
    ∃ f2, (touchFifo fid2 s).fifos.find? (fun g => g.uuid == fid) = some f2 := by
  have hpres : ∀ x : Fifo,
      ((fun g => g.uuid == fid)
        (if x.uuid == fid2 then { x with updatedAt := s.now } else x))
        = ((fun g => g.uuid == fid) x) := by
    intro x
    split <;> rfl
  show ∃ f2, (s.fifos.map (fun x =>
    if x.uuid == fid2 then { x with updatedAt := s.now } else x)).find?
      (fun g => g.uuid == fid) = some f2
  rw [find?_map_pres _ _ hpres, hf]
  exact ⟨_, rfl⟩

theorem utq_healthy (fid : Nat) (s : St) (f : Fifo) (t : Ticket)
    (hf : s.fifos.find? (fun g => g.uuid == fid) = some f)
    (hts : ticketsOf fid s = [t])
    (hok : checkTimeoutsStale s.now t = false) :
    updateTicketQueue fid s = some (notifyHead t (touchFifo fid s)) := by
  unfold updateTicketQueue
  rw [hf]
  simp only
  have h1 : selMin (ticketsOf fid (touchFifo fid s)) = some (t, []) := by
    rw [ticketsOf_touchFifo, hts]
    rfl
  rw [h1]
  simp only
  have h2 : ¬ (checkTimeoutsStale (touchFifo fid s).now t = true) := by
    have h3 : checkTimeoutsStale (touchFifo fid s).now t = false := hok
    simp [h3]
  rw [if_neg h2]

theorem utq_stale_single (fid : Nat) (s : St) (f : Fifo) (t : Ticket)
    (hf : s.fifos.find? (fun g => g.uuid == fid) = some f)
    (hts : ticketsOf fid s = [t])
    (hst : checkTimeoutsStale s.now t = true) :
    updateTicketQueue fid s = some (evictHead t (touchFifo fid s)) := by
  unfold updateTicketQueue
  rw [hf]
  simp only
  have h1 : selMin (ticketsOf fid (touchFifo fid s)) = some (t, []) := by
    rw [ticketsOf_touchFifo, hts]
    rfl
  rw [h1]
  simp only
  have h2 : checkTimeoutsStale (touchFifo fid s).now t = true := hst
  rw [if_pos h2]
  rfl

/-- C10: on a FIFO with an empty queue, the `ticket` handler notifies
the fresh ticket inside the `updateTicketQueue` call it makes before
encoding its 200 response — the new ticket's `notifiedAt` is set to the
current instant — and a subsequent `wait` call for that ticket finds its
waiter channel already closed by its own `updateTicketQueue` call (the
healthy path fires it in `notifyHead`, the stale path in `evictHead`),
so the select does not block. -/
theorem c10_first_ticket_notified_before_response (s : St) (fid u : Nat) (f : Fifo)
    (hf : s.fifos.find? (fun g => g.uuid == fid) = some f)
    (hempty : ticketsOf fid s = [])
    (hnt : ∀ t ∈ s.tickets, t.uuid ≠ u)
    (hnw : ∀ p ∈ s.waiters, p.1 ≠ u) :
    ∃ s2, ticketCall fid u s = some s2 ∧
      (∃ t ∈ s2.tickets, t.uuid = u ∧ t.notifiedAt = some s.now) ∧
      (∃ s3 ctx, waitStart fid u s2 = some (s3, ctx) ∧
        ctx.snap.uuid = u ∧ ctx.chanId ∈ s3.fired) := by
  have hts1 : (s.tickets ++ [mkTicket u fid f s.now]).filter (fun t => t.fifoUUID == fid) = [mkTicket u fid f s.now] := by
    rw [List.filter_append]
    have h1 : s.tickets.filter (fun t => t.fifoUUID == fid) = [] := hempty
    rw [h1, List.nil_append]
    simp [mkTicket]
  have hfI : ({ s with tickets := s.tickets ++ [mkTicket u fid f s.now], usedUuids := u :: s.usedUuids } : St).fifos.find? (fun g => g.uuid == fid) = some f := hf
  have htsI : ticketsOf fid { s with tickets := s.tickets ++ [mkTicket u fid f s.now], usedUuids := u :: s.usedUuids } = [mkTicket u fid f s.now] := hts1
  have hcall : ticketCall fid u s = some (notifyHead (mkTicket u fid f s.now) (touchFifo fid { s with tickets := s.tickets ++ [mkTicket u fid f s.now], usedUuids := u :: s.usedUuids })) := by
    unfold ticketCall
    rw [hf]
    simp only
    exact utq_healthy fid _ f (mkTicket u fid f s.now) hfI htsI rfl
  have ht' : markNotified u s.now (mkTicket u fid f s.now) = (⟨u, s.now, some s.now, none, f.waitTimeout, f.acceptTimeout, f.doneTimeout, fid⟩ : Ticket) := by
    unfold markNotified
    rw [if_pos (show ((mkTicket u fid f s.now).uuid == u) = true by simp [mkTicket])]
    rfl
  have hticks2 : (notifyHead (mkTicket u fid f s.now) (touchFifo fid { s with tickets := s.tickets ++ [mkTicket u fid f s.now], usedUuids := u :: s.usedUuids })).tickets = (s.tickets ++ [mkTicket u fid f s.now]).map (markNotified u s.now) :=
    notifyHead_tickets_of_none _ _ rfl
  have hfw0 : s.waiters.find? (fun p => p.1 == u) = none :=
    List.find?_eq_none.mpr (fun p hp => by simpa using hnw p hp)
  have hw2 : (notifyHead (mkTicket u fid f s.now) (touchFifo fid { s with tickets := s.tickets ++ [mkTicket u fid f s.now], usedUuids := u :: s.usedUuids })).waiters = s.waiters :=
    notifyHead_waiters_of_none _ _ hfw0
  have hlw : lookupWaiter u (notifyHead (mkTicket u fid f s.now) (touchFifo fid { s with tickets := s.tickets ++ [mkTicket u fid f s.now], usedUuids := u :: s.usedUuids })) = none := by
    unfold lookupWaiter
    rw [hw2, hfw0]
    rfl
  have hfind : (notifyHead (mkTicket u fid f s.now) (touchFifo fid { s with tickets := s.tickets ++ [mkTicket u fid f s.now], usedUuids := u :: s.usedUuids })).tickets.find? (fun t => t.uuid == u) = some (⟨u, s.now, some s.now, none, f.waitTimeout, f.acceptTimeout, f.doneTimeout, fid⟩ : Ticket) := by
    rw [hticks2, List.map_append]
    show ((s.tickets.map (markNotified u s.now)) ++ [markNotified u s.now (mkTicket u fid f s.now)]).find? (fun t => t.uuid == u) = _
    rw [ht']
    refine find?_append_unique _ _ _ ?_ (by simp)
    intro x hx
    rcases List.mem_map.mp hx with ⟨y, hy, hxy⟩
    show (x.uuid == u) = false
    rw [← hxy, markNotified_uuid]
    simpa using hnt y hy
  obtain ⟨f2, hf2t⟩ := touchFifo_find fid fid { s with tickets := s.tickets ++ [mkTicket u fid f s.now], usedUuids := u :: s.usedUuids } f hf
  have hfifos : (notifyHead (mkTicket u fid f s.now) (touchFifo fid { s with tickets := s.tickets ++ [mkTicket u fid f s.now], usedUuids := u :: s.usedUuids })).fifos.find? (fun g => g.uuid == fid) = some f2 := by
    rw [notifyHead_fifos]
    exact hf2t
  refine ⟨_, hcall, ?_, ?_⟩
  · refine ⟨(⟨u, s.now, some s.now, none, f.waitTimeout, f.acceptTimeout, f.doneTimeout, fid⟩ : Ticket), ?_, rfl, rfl⟩
    rw [hticks2, ← ht']
    exact List.mem_map_of_mem _ (List.mem_append_right _ (List.mem_singleton.mpr rfl))
  · revert hticks2 hlw hfind hfifos
    generalize notifyHead (mkTicket u fid f s.now) (touchFifo fid { s with tickets := s.tickets ++ [mkTicket u fid f s.now], usedUuids := u :: s.usedUuids }) = S
    intro hticks2 hlw hfind hfifos
    have htsB : ticketsOf fid { S with waiters := (u, S.nextChan) :: S.waiters, nextChan := S.nextChan + 1, blocked := (⟨(⟨u, s.now, some s.now, none, f.waitTimeout, f.acceptTimeout, f.doneTimeout, fid⟩ : Ticket), S.nextChan, S.now⟩ : WaitCtx) :: S.blocked } = [(⟨u, s.now, some s.now, none, f.waitTimeout, f.acceptTimeout, f.doneTimeout, fid⟩ : Ticket)] := by
      show S.tickets.filter (fun t => t.fifoUUID == fid) = _
      rw [hticks2, filter_fifo_markNotified, hts1]
      show [markNotified u s.now (mkTicket u fid f s.now)] = _
      rw [ht']
    have hfB : ({ S with waiters := (u, S.nextChan) :: S.waiters, nextChan := S.nextChan + 1, blocked := (⟨(⟨u, s.now, some s.now, none, f.waitTimeout, f.acceptTimeout, f.doneTimeout, fid⟩ : Ticket), S.nextChan, S.now⟩ : WaitCtx) :: S.blocked } : St).fifos.find? (fun g => g.uuid == fid) = some f2 := hfifos
    have hlook1 : lookupWaiter u (touchFifo fid { S with waiters := (u, S.nextChan) :: S.waiters, nextChan := S.nextChan + 1, blocked := (⟨(⟨u, s.now, some s.now, none, f.waitTimeout, f.acceptTimeout, f.doneTimeout, fid⟩ : Ticket), S.nextChan, S.now⟩ : WaitCtx) :: S.blocked }) = some S.nextChan := by
      show ((((u, S.nextChan) :: S.waiters).find? (fun p => p.1 == u)).map (fun p => p.2)) = some S.nextChan
      rw [List.find?_cons_of_pos _ (by simp)]
      rfl
    have hlook2 : lookupWaiter u (deleteTicket u (touchFifo fid { S with waiters := (u, S.nextChan) :: S.waiters, nextChan := S.nextChan + 1, blocked := (⟨(⟨u, s.now, some s.now, none, f.waitTimeout, f.acceptTimeout, f.doneTimeout, fid⟩ : Ticket), S.nextChan, S.now⟩ : WaitCtx) :: S.blocked })) = some S.nextChan := hlook1
    by_cases hb : checkTimeoutsStale ({ S with waiters := (u, S.nextChan) :: S.waiters, nextChan := S.nextChan + 1, blocked := (⟨(⟨u, s.now, some s.now, none, f.waitTimeout, f.acceptTimeout, f.doneTimeout, fid⟩ : Ticket), S.nextChan, S.now⟩ : WaitCtx) :: S.blocked } : St).now (⟨u, s.now, some s.now, none, f.waitTimeout, f.acceptTimeout, f.doneTimeout, fid⟩ : Ticket) = true
    · have hutq := utq_stale_single fid { S with waiters := (u, S.nextChan) :: S.waiters, nextChan := S.nextChan + 1, blocked := (⟨(⟨u, s.now, some s.now, none, f.waitTimeout, f.acceptTimeout, f.doneTimeout, fid⟩ : Ticket), S.nextChan, S.now⟩ : WaitCtx) :: S.blocked } f2 (⟨u, s.now, some s.now, none, f.waitTimeout, f.acceptTimeout, f.doneTimeout, fid⟩ : Ticket) hfB htsB hb
      refine ⟨evictHead (⟨u, s.now, some s.now, none, f.waitTimeout, f.acceptTimeout, f.doneTimeout, fid⟩ : Ticket) (touchFifo fid { S with waiters := (u, S.nextChan) :: S.waiters, nextChan := S.nextChan + 1, blocked := (⟨(⟨u, s.now, some s.now, none, f.waitTimeout, f.acceptTimeout, f.doneTimeout, fid⟩ : Ticket), S.nextChan, S.now⟩ : WaitCtx) :: S.blocked }), (⟨(⟨u, s.now, some s.now, none, f.waitTimeout, f.acceptTimeout, f.doneTimeout, fid⟩ : Ticket), S.nextChan, S.now⟩ : WaitCtx), ?_, rfl, ?_⟩
      · unfold waitStart
        rw [hfind]
        simp only
        rw [if_pos (show ((fid : Nat) == fid) = true by simp)]
        rw [hlw]
        simp only
        rw [hutq]
        rfl
      · exact fireWaiter_fires _ _ _ hlook2
    · have hutq := utq_healthy fid { S with waiters := (u, S.nextChan) :: S.waiters, nextChan := S.nextChan + 1, blocked := (⟨(⟨u, s.now, some s.now, none, f.waitTimeout, f.acceptTimeout, f.doneTimeout, fid⟩ : Ticket), S.nextChan, S.now⟩ : WaitCtx) :: S.blocked } f2 (⟨u, s.now, some s.now, none, f.waitTimeout, f.acceptTimeout, f.doneTimeout, fid⟩ : Ticket) hfB htsB (by simpa using hb)
      refine ⟨notifyHead (⟨u, s.now, some s.now, none, f.waitTimeout, f.acceptTimeout, f.doneTimeout, fid⟩ : Ticket) (touchFifo fid { S with waiters := (u, S.nextChan) :: S.waiters, nextChan := S.nextChan + 1, blocked := (⟨(⟨u, s.now, some s.now, none, f.waitTimeout, f.acceptTimeout, f.doneTimeout, fid⟩ : Ticket), S.nextChan, S.now⟩ : WaitCtx) :: S.blocked }), (⟨(⟨u, s.now, some s.now, none, f.waitTimeout, f.acceptTimeout, f.doneTimeout, fid⟩ : Ticket), S.nextChan, S.now⟩ : WaitCtx), ?_, rfl, ?_⟩
      · unfold waitStart
        rw [hfind]
        simp only
        rw [if_pos (show ((fid : Nat) == fid) = true by simp)]
        rw [hlw]
        simp only
        rw [hutq]
        rfl
      · exact notifyHead_fires _ _ _ hlook1

theorem c10_first_ticket_notified_before_response_witness :
    ∃ s2, ticketCall 1 2 (newFifoSt 1 100 10 5 1000 false St.empty) = some s2 ∧
      (∃ t ∈ s2.tickets, t.uuid = 2 ∧
        t.notifiedAt = some (newFifoSt 1 100 10 5 1000 false St.empty).now) ∧
      (∃ s3 ctx, waitStart 1 2 s2 = some (s3, ctx) ∧
        ctx.snap.uuid = 2 ∧ ctx.chanId ∈ s3.fired) :=
  c10_first_ticket_notified_before_response (newFifoSt 1 100 10 5 1000 false St.empty) 1 2
    (⟨1, 0, 0, 100, 10, 5, 1000, false⟩ : Fifo) (by decide) (by decide) (by decide) (by decide)
